import Mathlib

/-!
# BankTransfer payment screen: formatting, validation and form state

A shallow embedding of the logic of `src/screens/PaymentScreen.js` and
`src/utils/validation.js`.

JavaScript strings are embedded as Lean `String`s (sequences of Unicode scalar
values).  Every place where the source indexes or measures a string
(`slice`, `length`, the `{n}` quantifiers of a regular expression) does so on
text that has already been restricted to ASCII, where UTF-16 code units and
scalar values coincide.
-/

namespace PaymentScreen

/-! ## JavaScript string primitives -/

/-- The character class `[A-Z]`. -/
def upperAZ : List Char := "ABCDEFGHIJKLMNOPQRSTUVWXYZ".data

/-- The character class `[0-9]` (the same as `\d`). -/
def digit09 : List Char := "0123456789".data

/-- The character class `[A-Z0-9]`. -/
def alnumAZ09 : List Char := upperAZ ++ digit09

/-- The characters `a`..`z`. -/
def lowerAZ : List Char := "abcdefghijklmnopqrstuvwxyz".data

/-- Code points outside `a`..`z` whose upper-case form (Unicode default case
conversion, `SpecialCasing.txt` included) contains ASCII characters, with that
upper-case form. -/
def specialUpper : List (Char × List Char) :=
  [ (Char.ofNat 0x00DF, ['S', 'S']),
    (Char.ofNat 0x0131, ['I']),
    (Char.ofNat 0x0149, [Char.ofNat 0x02BC, 'N']),
    (Char.ofNat 0x017F, ['S']),
    (Char.ofNat 0x01F0, ['J', Char.ofNat 0x030C]),
    (Char.ofNat 0x1E96, ['H', Char.ofNat 0x0331]),
    (Char.ofNat 0x1E97, ['T', Char.ofNat 0x0308]),
    (Char.ofNat 0x1E98, ['W', Char.ofNat 0x030A]),
    (Char.ofNat 0x1E99, ['Y', Char.ofNat 0x030A]),
    (Char.ofNat 0x1E9A, ['A', Char.ofNat 0x02BE]),
    (Char.ofNat 0xFB00, ['F', 'F']),
    (Char.ofNat 0xFB01, ['F', 'I']),
    (Char.ofNat 0xFB02, ['F', 'L']),
    (Char.ofNat 0xFB03, ['F', 'F', 'I']),
    (Char.ofNat 0xFB04, ['F', 'F', 'L']),
    (Char.ofNat 0xFB05, ['S', 'T']),
    (Char.ofNat 0xFB06, ['S', 'T']) ]

/-- Upper-case form of one character, as `String.prototype.toUpperCase`
produces it.  Exact for ASCII and for every code point whose upper-case form
contains an ASCII character; any other code point is kept as it is, standing
for its (non-ASCII) upper-case form, which no character class or regular
expression of the source accepts. -/
def upperChar (c : Char) : List Char :=
  if c ∈ lowerAZ then [Char.ofNat (c.toNat - 32)]
  else match specialUpper.lookup c with
    | some u => u
    | none => [c]

/-- `s.toUpperCase()`. -/
def toUpperCase (s : String) : String := ⟨s.data.flatMap upperChar⟩

/-- White space and line terminators of ECMAScript: what `trim()` strips and
what `\s` matches. -/
def jsWhiteSpace : List Char :=
  [ Char.ofNat 0x0009, Char.ofNat 0x000A, Char.ofNat 0x000B, Char.ofNat 0x000C,
    Char.ofNat 0x000D, Char.ofNat 0x0020, Char.ofNat 0x00A0, Char.ofNat 0x1680,
    Char.ofNat 0x2000, Char.ofNat 0x2001, Char.ofNat 0x2002, Char.ofNat 0x2003,
    Char.ofNat 0x2004, Char.ofNat 0x2005, Char.ofNat 0x2006, Char.ofNat 0x2007,
    Char.ofNat 0x2008, Char.ofNat 0x2009, Char.ofNat 0x200A, Char.ofNat 0x2028,
    Char.ofNat 0x2029, Char.ofNat 0x202F, Char.ofNat 0x205F, Char.ofNat 0x3000,
    Char.ofNat 0xFEFF ]

/-- `cs` without its leading white space. -/
def trimStart (cs : List Char) : List Char := cs.dropWhile (· ∈ jsWhiteSpace)

/-- `s.trim()`. -/
def trim (s : String) : String := ⟨(trimStart (trimStart s.data).reverse).reverse⟩

/-- `s.replace(/[^...]/g, "")` for a character class: keep the members of `cls`. -/
def keepOnly (cls : List Char) (s : String) : String := ⟨s.data.filter (· ∈ cls)⟩

/-- `s.replace(/.../g, "")` for a pattern matching one character of `cls` (or a
run of them): drop the members of `cls`. -/
def removeAll (cls : List Char) (s : String) : String := ⟨s.data.filter (· ∉ cls)⟩

/-- `s.slice(start, stop)` for `0 ≤ start ≤ stop`. -/
def slice (s : String) (start stop : Nat) : String := ⟨(s.data.drop start).take (stop - start)⟩

/-- A JavaScript value as the helpers of this program receive it: `null`,
`undefined` or a string. -/
inductive JsValue where
  | null
  | undefined
  | str (s : String)
  deriving DecidableEq

/-- `String(value || "")`: the empty string for a falsy value. -/
def JsValue.orEmpty : JsValue → String
  | .str s => s
  | _ => ""

/-- `String(v == null ? "" : v)`. -/
def JsValue.nullToEmpty : JsValue → String
  | .str s => s
  | _ => ""

/-! ## Input formatting (`onChange`) -/

/-- The value the `iban` branch of `onChange` stores. -/
def ibanFormat (value : JsValue) : String :=
  slice (keepOnly alnumAZ09 (toUpperCase value.orEmpty)) 0 34

/-- The value the `swift` branch of `onChange` stores. -/
def swiftFormat (value : JsValue) : String :=
  let raw := keepOnly alnumAZ09 (toUpperCase value.orEmpty)
  let raw := slice raw 0 12
  let part1 := keepOnly upperAZ (slice raw 0 4)
  let part2 := keepOnly upperAZ (slice raw 4 6)
  let part3 := slice raw 6 8
  let part4 := keepOnly digit09 (slice raw 8 12)
  let formatted := ""
  let formatted := if part1 ≠ "" then part1 else formatted
  let formatted := if part2 ≠ "" then formatted ++ "-" ++ part2 else formatted
  let formatted := if part3 ≠ "" then formatted ++ "-" ++ part3 else formatted
  let formatted := if part4 ≠ "" then formatted ++ "-" ++ part4 else formatted
  formatted

/-! ## Regular expressions -/

/-- Regular expressions over characters; `test` below anchors them at both
ends, as `^...$` does. -/
abbrev Regex := RegularExpression Char

/-- A character class given by its members: `[...]`. -/
def cls (cs : List Char) : Regex :=
  cs.foldr (fun c r => RegularExpression.char c + r) 0

/-- The quantifier `r{n}`. -/
def exactly (r : Regex) (n : Nat) : Regex := r ^ n

/-- The quantifier `r{0,n}`. -/
def upTo (r : Regex) (n : Nat) : Regex := (1 + r) ^ n

/-- The quantifier `r{lo,hi}`. -/
def between (r : Regex) (lo hi : Nat) : Regex := exactly r lo * upTo r (hi - lo)

/-- The group `(r)?`. -/
def opt (r : Regex) : Regex := 1 + r

/-- The literal character `-`. -/
def hyphen : Regex := RegularExpression.char '-'

/-- `/^r$/.test(s)`. -/
def test (r : Regex) (s : String) : Bool := r.rmatch s.data

/-- The pattern `^([A-Z]{0,4})(-[A-Z]{0,2})?(-[A-Z0-9]{0,2})?(-\d{0,4})?$` of a partial or
complete SWIFT mask. -/
def swiftMask : Regex :=
  upTo (cls upperAZ) 4 * opt (hyphen * upTo (cls upperAZ) 2)
    * opt (hyphen * upTo (cls alnumAZ09) 2) * opt (hyphen * upTo (cls digit09) 4)

/-- The input of `swiftFormat` once upper-cased, stripped of everything but
`[A-Z0-9]` and cut to 12 characters (the second value of `raw` in the source). -/
def swiftRaw (value : JsValue) : String :=
  slice (keepOnly alnumAZ09 (toUpperCase value.orEmpty)) 0 12

/-- A group of the SWIFT mask with its leading hyphen: nothing when the group
is empty. -/
def hyphenated (part : List Char) : List Char :=
  if part = [] then [] else '-' :: part


/-! ## JavaScript numbers

A Number is an IEEE 754 binary64 value.  A finite one is kept as its sign, its
53-bit significand `mant` and its exponent `exp`, standing for
`± mant * 2 ^ exp`, in the canonical form of the format: `mant < 2 ^ 53`,
`-1074 ≤ exp ≤ 971`, and `2 ^ 52 ≤ mant` unless `exp = -1074` (zero and the
subnormal numbers). -/

/-- A JavaScript Number. -/
inductive JsNumber where
  | nan
  | infinity (negative : Bool)
  | finite (negative : Bool) (mant : Nat) (exp : Int)
  deriving DecidableEq

/-- Number of binary digits of `n`, with `fuel` at least that number. -/
def bitLenAux : Nat → Nat → Nat
  | 0, _ => 0
  | fuel + 1, n => if n = 0 then 0 else bitLenAux fuel (n / 2) + 1

/-- Number of binary digits of `n` (0 for 0). -/
def bitLen (n : Nat) : Nat := bitLenAux n n

/-- The integer `k` with `2 ^ k ≤ a / b < 2 ^ (k + 1)`, for positive `a` and `b`. -/
def floorLog2Ratio (a b : Nat) : Int :=
  let d : Int := (bitLen a : Int) - (bitLen b : Int)
  if b * 2 ^ bitLen a ≤ a * 2 ^ bitLen b then d else d - 1

/-- The integer nearest to `num / den`, ties to the even one. -/
def roundHalfEven (num den : Nat) : Nat :=
  let q := num / den
  let r := num % den
  if 2 * r < den then q
  else if den < 2 * r then q + 1
  else if q % 2 = 0 then q else q + 1

/-- The integer nearest to `a / b / 2 ^ e`, ties to the even one. -/
def scaledRound (a b : Nat) (e : Int) : Nat :=
  if 0 ≤ e then roundHalfEven a (b * 2 ^ e.toNat)
  else roundHalfEven (a * 2 ^ (-e).toNat) b

/-- The Number nearest to `± a / b` (round to nearest, ties to even), for
`b > 0`: the rounding every arithmetic operation and every conversion from
text applies to its exact result.  The exponent is that of the binade of
`a / b`, or the least one; a significand that rounds up to `2 ^ 53` moves to
the next binade, and a result beyond the largest exponent is an infinity. -/
def roundRatio (negative : Bool) (a b : Nat) : JsNumber :=
  if a = 0 then .finite negative 0 (-1074)
  else
    let e : Int := max (floorLog2Ratio a b - 52) (-1074)
    let m := scaledRound a b e
    let me : Nat × Int := if m = 2 ^ 53 then (2 ^ 52, e + 1) else (m, e)
    if 971 < me.2 then .infinity negative else .finite negative me.1 me.2

namespace JsNumber

/-- The Number a decimal literal of value `a / b` denotes. -/
def lit (a b : Nat) : JsNumber := roundRatio false a b

/-- The canonical form of the binary64 format, for a finite Number. -/
def canonical : JsNumber → Bool
  | finite _ mant exp =>
    decide (mant < 2 ^ 53 ∧ -1074 ≤ exp ∧ exp ≤ 971 ∧ (2 ^ 52 ≤ mant ∨ exp = -1074))
  | _ => true

/-- The exact value of a Number: none for `NaN` and the infinities. -/
def toRat : JsNumber → Option ℚ
  | finite negative mant exp => some ((if negative then -1 else 1) * (mant : ℚ) * 2 ^ exp)
  | _ => none

/-- `Number.isFinite(x)`. -/
def isFinite : JsNumber → Bool
  | finite _ _ _ => true
  | _ => false

/-- The exact value of a finite Number, scaled by `2 ^ 1074` to an integer. -/
def scaled : Bool → Nat → Int → Int
  | negative, mant, exp =>
    let v : Nat := mant * 2 ^ (exp + 1074).toNat
    if negative then -(v : Int) else (v : Int)

/-- `x > y`. -/
def gt : JsNumber → JsNumber → Bool
  | nan, _ => false
  | _, nan => false
  | infinity n₁, infinity n₂ => !n₁ && n₂
  | infinity n₁, finite _ _ _ => !n₁
  | finite _ _ _, infinity n₂ => n₂
  | finite n₁ m₁ e₁, finite n₂ m₂ e₂ => decide (scaled n₂ m₂ e₂ < scaled n₁ m₁ e₁)

/-- `x * y`. -/
def mul : JsNumber → JsNumber → JsNumber
  | nan, _ => nan
  | _, nan => nan
  | infinity n₁, infinity n₂ => infinity (xor n₁ n₂)
  | infinity n₁, finite n₂ m₂ _ => if m₂ = 0 then nan else infinity (xor n₁ n₂)
  | finite n₁ m₁ _, infinity n₂ => if m₁ = 0 then nan else infinity (xor n₁ n₂)
  | finite n₁ m₁ e₁, finite n₂ m₂ e₂ =>
    let e := e₁ + e₂
    if 0 ≤ e then roundRatio (xor n₁ n₂) (m₁ * m₂ * 2 ^ e.toNat) 1
    else roundRatio (xor n₁ n₂) (m₁ * m₂) (2 ^ (-e).toNat)

end JsNumber

/-! ## `Number(text)` -/

/-- Value of a run of digits in base `base`. -/
def digitsValue (base : Nat) (digitOf : Char → Nat) (ds : List Char) : Nat :=
  ds.foldl (fun n c => base * n + digitOf c) 0

/-- Value of a decimal digit. -/
def decDigit (c : Char) : Nat := c.toNat - 48

/-- The characters `0`..`9`, `a`..`f`, `A`..`F`. -/
def hexDigits : List Char := "0123456789abcdefABCDEF".data

/-- Value of a hexadecimal digit. -/
def hexDigit (c : Char) : Nat :=
  if c ∈ digit09 then c.toNat - 48
  else if c.toNat < 97 then c.toNat - 55 else c.toNat - 87

/-- An `ExponentPart` after its `e` or `E`: an optional sign and at least one
digit. -/
def parseExponent (cs : List Char) : Option Int :=
  let signed : Bool × List Char :=
    match cs with
    | '+' :: r => (false, r)
    | '-' :: r => (true, r)
    | _ => (false, cs)
  if signed.2 ≠ [] ∧ signed.2.all (· ∈ digit09) then
    some (if signed.1 then -(digitsValue 10 decDigit signed.2 : Int)
          else (digitsValue 10 decDigit signed.2 : Int))
  else none

/-- A `StrUnsignedDecimalLiteral` other than `Infinity`, as the pair `(n, k)`
of its value `n * 10 ^ k`: digits with an optional fraction, or a fraction
alone, then an optional exponent. -/
def parseUnsignedDecimal (cs : List Char) : Option (Nat × Int) :=
  let ip := cs.span (· ∈ digit09)
  let fp : List Char × List Char :=
    match ip.2 with
    | '.' :: r => r.span (· ∈ digit09)
    | r => ([], r)
  if ip.1 = [] ∧ fp.1 = [] then none
  else
    let n := digitsValue 10 decDigit (ip.1 ++ fp.1)
    match fp.2 with
    | [] => some (n, -(fp.1.length : Int))
    | c :: r =>
      if c = 'e' ∨ c = 'E' then
        match parseExponent r with
        | some x => some (n, x - (fp.1.length : Int))
        | none => none
      else none

/-- The Number of value `± n * 10 ^ k`. -/
def ofDecimal (negative : Bool) (n : Nat) (k : Int) : JsNumber :=
  if 0 ≤ k then roundRatio negative (n * 10 ^ k.toNat) 1
  else roundRatio negative n (10 ^ (-k).toNat)

/-- A `StrDecimalLiteral` without its sign. -/
def parseUnsigned (negative : Bool) (cs : List Char) : JsNumber :=
  if cs = "Infinity".data then .infinity negative
  else match parseUnsignedDecimal cs with
    | some (n, k) => ofDecimal negative n k
    | none => .nan

/-- A `NonDecimalIntegerLiteral` after its prefix: at least one digit of the base. -/
def parseRadix (base : Nat) (allowed : List Char) (ds : List Char) : JsNumber :=
  if ds ≠ [] ∧ ds.all (· ∈ allowed) then roundRatio false (digitsValue base hexDigit ds) 1
  else .nan

/-- `Number(s)` for a string (`StringToNumber`): white space is stripped, the
empty string is `0`, a `StrNumericLiteral` is rounded to the nearest Number and
anything else is `NaN`. -/
def Number (s : String) : JsNumber :=
  match (trim s).data with
  | [] => .finite false 0 (-1074)
  | c :: r =>
    if c = '+' then parseUnsigned false r
    else if c = '-' then parseUnsigned true r
    else if c = '0' ∧ (r.head? = some 'x' ∨ r.head? = some 'X') then
      parseRadix 16 hexDigits r.tail
    else if c = '0' ∧ (r.head? = some 'o' ∨ r.head? = some 'O') then
      parseRadix 8 "01234567".data r.tail
    else if c = '0' ∧ (r.head? = some 'b' ∨ r.head? = some 'B') then
      parseRadix 2 "01".data r.tail
    else parseUnsigned false (c :: r)

/-! ## `src/utils/validation.js` -/

/-- `toNumber(v)`. -/
def toNumber (v : JsValue) : JsNumber :=
  let n := Number (trim (removeAll [','] v.nullToEmpty))
  if n.isFinite then n else JsNumber.lit 0 1

/-- `s.length`: the number of UTF-16 code units of `s`. -/
def jsLength (s : String) : Nat :=
  (s.data.map fun c => if c.toNat < 0x10000 then 1 else 2).sum

/-- The pattern `^[A-Z0-9]{8,34}$`. -/
def ibanLoose : Regex := between (cls alnumAZ09) 8 34

/-- The pattern `^[A-Z0-9]{34}$`. -/
def ibanExact : Regex := exactly (cls alnumAZ09) 34

/-- The pattern `^[A-Z]{4}-[A-Z]{2}-[A-Z0-9]{2}-\d{4}$`. -/
def swiftPattern : Regex :=
  exactly (cls upperAZ) 4 * hyphen * exactly (cls upperAZ) 2 * hyphen
    * exactly (cls alnumAZ09) 2 * hyphen * exactly (cls digit09) 4

/-- `isValidIban(iban)`. -/
def isValidIban (iban : JsValue) : Bool :=
  test ibanLoose (toUpperCase (removeAll jsWhiteSpace iban.nullToEmpty))

/-- `isValidSwift(swift)`. -/
def isValidSwift (swift : JsValue) : Bool :=
  test swiftPattern (toUpperCase swift.nullToEmpty)

/-! ## Form state (`src/screens/PaymentScreen.js`) -/

/-- The two transfer types. -/
inductive TransferType where
  | DOMESTIC
  | INTERNATIONAL
  deriving DecidableEq

/-- The form: the eight text fields of `initialForm`. -/
structure Form where
  name : String
  bankName : String
  accountNo : String
  amountInInr : String
  remark : String
  country : String
  iban : String
  swift : String
  deriving DecidableEq

/-- `initialForm`. -/
def initialForm : Form :=
  { name := "", bankName := "", accountNo := "", amountInInr := "", remark := "",
    country := "", iban := "", swift := "" }

/-- The keys of the form that the screen dispatches on. -/
inductive FormKey where
  | name
  | bankName
  | accountNo
  | amountInInr
  | remark
  | country
  | iban
  | swift
  deriving DecidableEq

/-- `state[key]`. -/
def Form.get (state : Form) : FormKey → String
  | .name => state.name
  | .bankName => state.bankName
  | .accountNo => state.accountNo
  | .amountInInr => state.amountInInr
  | .remark => state.remark
  | .country => state.country
  | .iban => state.iban
  | .swift => state.swift

/-- `{ ...state, [key]: value }`. -/
def Form.set (state : Form) (key : FormKey) (value : String) : Form :=
  match key with
  | .name => { state with name := value }
  | .bankName => { state with bankName := value }
  | .accountNo => { state with accountNo := value }
  | .amountInInr => { state with amountInInr := value }
  | .remark => { state with remark := value }
  | .country => { state with country := value }
  | .iban => { state with iban := value }
  | .swift => { state with swift := value }

/-- An action of the form reducer; `other` is an action whose `type` is
neither `"set"` nor `"reset"`. -/
inductive Action where
  | set (key : FormKey) (value : String)
  | reset
  | other (type : String)
  deriving DecidableEq

/-- `formReducer(state, action)`. -/
def formReducer (state : Form) : Action → Form
  | .set key value => if state.get key = value then state else state.set key value
  | .reset => initialForm
  | .other _ => state

/-- The value of the `statusModal` state. -/
structure StatusModal where
  visible : Bool
  ok : Bool
  ref : String
  deriving DecidableEq

/-- The state of the screen component: its five `useState` and `useReducer`
cells. -/
structure Screen where
  transferType : TransferType
  form : Form
  countryModal : Bool
  statusModal : StatusModal
  footerH : Nat
  deriving DecidableEq

/-- The state the component is mounted with. -/
def initialScreen : Screen :=
  { transferType := .DOMESTIC, form := initialForm, countryModal := false,
    statusModal := { visible := false, ok := true, ref := "" }, footerH := 64 }

/-- `dispatch(action)`. -/
def dispatch (s : Screen) (action : Action) : Screen :=
  { s with form := formReducer s.form action }

/-- `isInternational`. -/
def isInternational (s : Screen) : Bool := s.transferType = .INTERNATIONAL

/-- `onChange(key, value)`, for the text a field reports. -/
def onChange (s : Screen) (key : FormKey) (value : String) : Screen :=
  if key = .iban then dispatch s (.set key (ibanFormat (.str value)))
  else if key = .swift then dispatch s (.set key (swiftFormat (.str value)))
  else dispatch s (.set key value)

/-- An entry of the country list (`src/Data/Countries`, not part of the
sources at hand): the list is a parameter of what reads it. -/
structure Country where
  name : String
  currency : String
  deriving DecidableEq

/-- The FX table (`src/Data/Fx`, not part of the sources at hand), a
parameter of what reads it: `some r` for a key whose entry is of type
number, `none` for a key that is absent or holds anything else. -/
abbrev FxTable := String → Option JsNumber

/-- `selectedCurrency`. -/
def selectedCurrency (COUNTRIES : List Country) (s : Screen) : String :=
  if ¬ isInternational s then "INR"
  else match COUNTRIES.find? (fun c => c.name = s.form.country) with
    | some m => m.currency
    | none => "USD"

/-- `fx`. -/
def fx (COUNTRIES : List Country) (FX : FxTable) (s : Screen) : JsNumber :=
  match FX (selectedCurrency COUNTRIES s) with
  | some rate => rate
  | none => JsNumber.lit 1 1

/-- `amountInInr`. -/
def amountInInr (s : Screen) : JsNumber := toNumber (.str s.form.amountInInr)

/-- `converted`. -/
def converted (COUNTRIES : List Country) (FX : FxTable) (s : Screen) : JsNumber :=
  if isInternational s then (amountInInr s).mul (fx COUNTRIES FX s) else amountInInr s

/-- `validateCommon()`: the message of the first rule that fails, `none` for
`null`. -/
def validateCommon (s : Screen) : Option String :=
  if trim s.form.name = "" then some "Please enter recipient name."
  else if trim s.form.bankName = "" then some "Please enter bank name."
  else if trim s.form.accountNo = "" then some "Please enter account number."
  else if ¬ (amountInInr s).gt (JsNumber.lit 0 1) then some "Amount (INR) must be greater than 0."
  else none

/-- The IBAN rule of `validateInternational` (lines 160 to 164): the value of
`ibanValidLength && ibanAlnum && isValidIban(ibanRaw)`. -/
def ibanRule (iban : String) : Bool :=
  let ibanRaw := toUpperCase iban
  let ibanValidLength := decide (jsLength ibanRaw = 34)
  let ibanAlnum := test ibanExact ibanRaw
  ibanValidLength && ibanAlnum && isValidIban (.str ibanRaw)

/-- `validateInternational()`. -/
def validateInternational (s : Screen) : Option String :=
  if s.form.country = "" then some "Please select a country."
  else if trim s.form.iban = "" then some "Please enter IBAN."
  else if ¬ ibanRule s.form.iban then some "IBAN must be exactly 34 alphanumeric characters."
  else if trim s.form.swift = "" then some "Please enter SWIFT code."
  else if ¬ isValidSwift (.str s.form.swift) then
    some "SWIFT must match AAAA-BB-CC-1234 format (last 4 digits only)."
  else none

/-- What `onPay` does: it shows an alert, or it sets the status modal. -/
inductive PayEffect where
  | alert (title message : String)
  | setStatusModal (value : StatusModal)
  deriving DecidableEq

/-- Truthiness of a validation result: `null` and the empty string are falsy. -/
def truthy : Option String → Bool
  | some message => message ≠ ""
  | none => false

/-- `text.slice(-n)`: the last `n` characters. -/
def sliceLast (text : String) (n : Nat) : String := ⟨text.data.drop (text.data.length - n)⟩

/-- `onPay()`, given the values `Math.random()` and `Date.now()` return. -/
def onPay (s : Screen) (random : JsNumber) (now : Nat) : PayEffect :=
  let commonErr := validateCommon s
  if truthy commonErr then .alert "Validation" (commonErr.getD "")
  else
    let intlErr := if isInternational s then validateInternational s else none
    if truthy intlErr then .alert "Validation" (intlErr.getD "")
    else
      let ok := random.gt (JsNumber.lit 1 10)
      let ref := "TXN" ++ sliceLast (toString now) 8
      .setStatusModal { visible := true, ok := ok, ref := ref }

/-- `onNewPayment()`. -/
def onNewPayment (s : Screen) : Screen :=
  dispatch { s with statusModal := { visible := false, ok := true, ref := "" },
                    transferType := .DOMESTIC } .reset

/-- `onCloseStatus()`. -/
def onCloseStatus (s : Screen) : Screen :=
  { s with statusModal := { s.statusModal with visible := false } }


/-! ## Country picker (`src/components/CountryPickerModal.js`) -/

/-- `text.includes(part)`: `part` occurs in `text` as a run of consecutive
characters. -/
def includes (text part : String) : Bool := decide (part.data <:+: text.data)

/-- Lower-case form of ASCII text: `A`..`Z` become `a`..`z` and every other
character is kept.  On ASCII text this is `String.prototype.toLowerCase`. -/
def lowerAscii (s : String) : String :=
  ⟨s.data.map fun c => if c ∈ upperAZ then Char.ofNat (c.toNat + 32) else c⟩

/-- `filtered`: the rows the country picker shows for the text `query` of its
search box.  `toLowerCase` is `String.prototype.toLowerCase`, whose Unicode
case tables are not part of the sources: it is a parameter. -/
def filtered (toLowerCase : String → String) (query : String) (countries : List Country) :
    List Country :=
  let q := toLowerCase (trim query)
  if q = "" then countries
  else countries.filter fun c =>
    includes (toLowerCase c.name) q || includes (toLowerCase c.currency) q

/-- The text `s` without its last character when that is a hyphen. -/
def dropTrailingHyphen (s : String) : String :=
  if s.data.getLast? = some '-' then ⟨s.data.dropLast⟩ else s


/-! ## Lemmas on strings and lists -/

theorem upperChar_fixed : ∀ c ∈ '-' :: alnumAZ09, upperChar c = [c] := by decide

theorem flatMap_upperChar_fixed (l : List Char) (h : ∀ c ∈ l, c ∈ '-' :: alnumAZ09) :
    l.flatMap upperChar = l := by
  induction l with
  | nil => rfl
  | cons a l ih =>
    have ha : upperChar a = [a] := upperChar_fixed a (h a (List.mem_cons_self a l))
    have hl : l.flatMap upperChar = l := ih fun c hc => h c (List.mem_cons_of_mem a hc)
    simp [List.flatMap_cons, ha, hl]

theorem filter_mem_self {cs l : List Char} (h : ∀ c ∈ l, c ∈ cs) :
    l.filter (· ∈ cs) = l :=
  List.filter_eq_self.2 fun c hc => by simpa using h c hc

theorem mem_filter_mem {cs l : List Char} {c : Char} (h : c ∈ l.filter (· ∈ cs)) : c ∈ cs := by
  simpa using (List.mem_filter.1 h).2

/-! ## Lemmas on regular expressions -/

open RegularExpression in
theorem cls_rmatch_iff (cs : List Char) (x : List Char) :
    (cls cs).rmatch x ↔ ∃ c ∈ cs, x = [c] := by
  induction cs with
  | nil => simp [cls, zero_rmatch]
  | cons a cs ih =>
    have : cls (a :: cs) = char a + cls cs := rfl
    rw [this, add_rmatch_iff, char_rmatch_iff, ih]
    simp

open RegularExpression in
theorem exactly_rmatch_iff (cs : List Char) (n : Nat) (x : List Char) :
    (exactly (cls cs) n).rmatch x ↔ x.length = n ∧ ∀ c ∈ x, c ∈ cs := by
  induction n generalizing x with
  | zero =>
    have : exactly (cls cs) 0 = 1 := rfl
    rw [this, one_rmatch_iff]
    constructor
    · rintro rfl; simp
    · rintro ⟨h, -⟩; exact List.length_eq_zero.1 h
  | succ n ih =>
    have : exactly (cls cs) (n + 1) = exactly (cls cs) n * cls cs := rfl
    rw [this, mul_rmatch_iff]
    constructor
    · rintro ⟨t, u, rfl, ht, hu⟩
      obtain ⟨hl, hm⟩ := (ih t).1 ht
      obtain ⟨c, hc, rfl⟩ := (cls_rmatch_iff cs u).1 hu
      refine ⟨by simp [hl], ?_⟩
      intro d hd
      rcases List.mem_append.1 hd with h | h
      · exact hm d h
      · simpa [List.mem_singleton.1 h] using hc
    · rintro ⟨hl, hm⟩
      have hne : x ≠ [] := by
        intro h; simp [h] at hl
      refine ⟨x.dropLast, [x.getLast hne], (List.dropLast_append_getLast hne).symm, ?_, ?_⟩
      · exact (ih _).2 ⟨by simp [hl], fun c hc => hm c (List.mem_of_mem_dropLast hc)⟩
      · exact (cls_rmatch_iff cs _).2 ⟨_, hm _ (List.getLast_mem hne), rfl⟩

open RegularExpression in
theorem upTo_rmatch_iff (cs : List Char) (n : Nat) (x : List Char) :
    (upTo (cls cs) n).rmatch x ↔ x.length ≤ n ∧ ∀ c ∈ x, c ∈ cs := by
  induction n generalizing x with
  | zero =>
    have : upTo (cls cs) 0 = 1 := rfl
    rw [this, one_rmatch_iff]
    constructor
    · rintro rfl; simp
    · rintro ⟨h, -⟩; exact List.length_eq_zero.1 (Nat.le_zero.1 h)
  | succ n ih =>
    have : upTo (cls cs) (n + 1) = upTo (cls cs) n * (1 + cls cs) := rfl
    rw [this, mul_rmatch_iff]
    constructor
    · rintro ⟨t, u, rfl, ht, hu⟩
      obtain ⟨hl, hm⟩ := (ih t).1 ht
      rcases (add_rmatch_iff _ _ _).1 hu with h | h
      · rw [(one_rmatch_iff u).1 h]
        simp only [List.append_nil]
        exact ⟨Nat.le_succ_of_le hl, hm⟩
      · obtain ⟨c, hc, rfl⟩ := (cls_rmatch_iff cs u).1 h
        refine ⟨by simpa using hl, ?_⟩
        intro d hd
        rcases List.mem_append.1 hd with h | h
        · exact hm d h
        · simpa [List.mem_singleton.1 h] using hc
    · rintro ⟨hl, hm⟩
      by_cases hn : x.length ≤ n
      · exact ⟨x, [], by simp, (ih x).2 ⟨hn, hm⟩,
          (add_rmatch_iff _ _ _).2 (Or.inl ((one_rmatch_iff _).2 rfl))⟩
      · have hne : x ≠ [] := by
          intro h; simp [h] at hn
        refine ⟨x.dropLast, [x.getLast hne], (List.dropLast_append_getLast hne).symm, ?_, ?_⟩
        · refine (ih _).2 ⟨?_, fun c hc => hm c (List.mem_of_mem_dropLast hc)⟩
          simp; omega
        · exact (add_rmatch_iff _ _ _).2
            (Or.inr ((cls_rmatch_iff cs _).2 ⟨_, hm _ (List.getLast_mem hne), rfl⟩))

/-! ## IBAN formatting -/

theorem ibanFormat_data (value : JsValue) :
    (ibanFormat value).data
      = ((value.orEmpty.data.flatMap upperChar).filter (· ∈ alnumAZ09)).take 34 := by
  simp [ibanFormat, slice, keepOnly, toUpperCase]

theorem ibanFormat_mem (value : JsValue) : ∀ c ∈ (ibanFormat value).data, c ∈ alnumAZ09 := by
  intro c hc
  rw [ibanFormat_data] at hc
  exact mem_filter_mem (List.mem_of_mem_take hc)

theorem ibanFormat_length (value : JsValue) : (ibanFormat value).length ≤ 34 := by
  show (ibanFormat value).data.length ≤ 34
  rw [ibanFormat_data]
  exact List.length_take_le _ _

/-- C3: the value the IBAN branch stores has at most 34 characters, all of them
in `[A-Z0-9]`, and formatting it again leaves it unchanged. -/
theorem ibanFormat_bounded_idempotent (value : JsValue) :
    (ibanFormat value).length ≤ 34
      ∧ (∀ c ∈ (ibanFormat value).data, c ∈ alnumAZ09)
      ∧ ibanFormat (.str (ibanFormat value)) = ibanFormat value := by
  refine ⟨ibanFormat_length value, ibanFormat_mem value, ?_⟩
  have hmem := ibanFormat_mem value
  have hlen : (ibanFormat value).data.length ≤ 34 := ibanFormat_length value
  apply String.ext
  rw [ibanFormat_data (.str (ibanFormat value))]
  show (((ibanFormat value).data.flatMap upperChar).filter (· ∈ alnumAZ09)).take 34 = _
  rw [flatMap_upperChar_fixed _ fun c hc => List.mem_cons_of_mem _ (hmem c hc),
    filter_mem_self hmem, List.take_of_length_le hlen]


/-! ## SWIFT formatting -/

theorem swiftFormat_data (value : JsValue) :
    (swiftFormat value).data
      = ((swiftRaw value).data.take 4).filter (· ∈ upperAZ)
        ++ hyphenated ((((swiftRaw value).data.drop 4).take 2).filter (· ∈ upperAZ))
        ++ hyphenated (((swiftRaw value).data.drop 6).take 2)
        ++ hyphenated ((((swiftRaw value).data.drop 8).take 4).filter (· ∈ digit09)) := by
  simp only [swiftFormat, swiftRaw, slice, keepOnly, hyphenated, ne_eq, String.ext_iff,
    List.drop_zero, Nat.sub_zero]
  split_ifs <;> simp_all [String.data_append]


theorem swiftRaw_data (value : JsValue) :
    (swiftRaw value).data
      = ((value.orEmpty.data.flatMap upperChar).filter (· ∈ alnumAZ09)).take 12 := by
  simp [swiftRaw, slice, keepOnly, toUpperCase]

theorem swiftRaw_mem (value : JsValue) : ∀ c ∈ (swiftRaw value).data, c ∈ alnumAZ09 := by
  intro c hc
  rw [swiftRaw_data] at hc
  exact mem_filter_mem (List.mem_of_mem_take hc)

theorem swiftRaw_length (value : JsValue) : (swiftRaw value).data.length ≤ 12 := by
  rw [swiftRaw_data]
  exact List.length_take_le _ _

theorem hyphenated_length (part : List Char) : (hyphenated part).length ≤ part.length + 1 := by
  unfold hyphenated
  split <;> simp

open RegularExpression in
theorem opt_group_rmatch (cs part : List Char) (k : Nat) (hl : part.length ≤ k)
    (hm : ∀ c ∈ part, c ∈ cs) :
    (opt (hyphen * upTo (cls cs) k)).rmatch (hyphenated part) := by
  unfold opt hyphenated
  rw [add_rmatch_iff]
  split
  · exact Or.inl ((one_rmatch_iff _).2 rfl)
  · exact Or.inr ((mul_rmatch_iff _ _ _).2
      ⟨['-'], part, rfl, (char_rmatch_iff _ _).2 rfl, (upTo_rmatch_iff cs k part).2 ⟨hl, hm⟩⟩)

theorem length_filter_take_le (p : Char → Bool) (l : List Char) (n : Nat) :
    ((l.take n).filter p).length ≤ n :=
  le_trans (List.length_filter_le _ _) (List.length_take_le _ _)

open RegularExpression in
/-- C2: the value the SWIFT branch stores matches
`^([A-Z]{0,4})(-[A-Z]{0,2})?(-[A-Z0-9]{0,2})?(-\d{0,4})?$` and has at most 15
characters. -/
theorem swiftFormat_matches_mask (value : JsValue) :
    test swiftMask (swiftFormat value) = true ∧ (swiftFormat value).length ≤ 15 := by
  have hraw := swiftRaw_mem value
  constructor
  · unfold test swiftMask
    rw [swiftFormat_data]
    refine (mul_rmatch_iff _ _ _).2 ⟨_, _, rfl, ?_, ?_⟩
    refine (mul_rmatch_iff _ _ _).2 ⟨_, _, rfl, ?_, ?_⟩
    refine (mul_rmatch_iff _ _ _).2 ⟨_, _, rfl, ?_, ?_⟩
    · exact (upTo_rmatch_iff _ _ _).2 ⟨length_filter_take_le _ _ _, fun c hc => mem_filter_mem hc⟩
    · exact opt_group_rmatch _ _ _ (length_filter_take_le _ _ _) fun c hc => mem_filter_mem hc
    · exact opt_group_rmatch _ _ _ (List.length_take_le _ _)
        fun c hc => hraw c (List.mem_of_mem_drop (List.mem_of_mem_take hc))
    · exact opt_group_rmatch _ _ _ (length_filter_take_le _ _ _) fun c hc => mem_filter_mem hc
  · show (swiftFormat value).data.length ≤ 15
    rw [swiftFormat_data]
    have h1 := length_filter_take_le (· ∈ upperAZ) (swiftRaw value).data 4
    have h2 := length_filter_take_le (· ∈ upperAZ) ((swiftRaw value).data.drop 4) 2
    have h3 := List.length_take_le 2 ((swiftRaw value).data.drop 6)
    have h4 := length_filter_take_le (· ∈ digit09) ((swiftRaw value).data.drop 8) 4
    have g2 := hyphenated_length ((((swiftRaw value).data.drop 4).take 2).filter (· ∈ upperAZ))
    have g3 := hyphenated_length (((swiftRaw value).data.drop 6).take 2)
    have g4 := hyphenated_length ((((swiftRaw value).data.drop 8).take 4).filter (· ∈ digit09))
    simp only [List.length_append]
    omega

/-- C1, as stated, fails: formatting `"1BCDEF"` gives `"BCD-EF"`, and formatting
that again gives `"BCDE-F"`. -/
theorem swiftFormat_not_idempotent :
    swiftFormat (.str "1BCDEF") = "BCD-EF"
      ∧ swiftFormat (.str (swiftFormat (.str "1BCDEF"))) = "BCDE-F"
      ∧ swiftFormat (.str (swiftFormat (.str "1BCDEF"))) ≠ swiftFormat (.str "1BCDEF") := by
  decide

theorem filter_hyphenated (part : List Char) (hm : ∀ c ∈ part, c ∈ alnumAZ09) :
    (hyphenated part).filter (· ∈ alnumAZ09) = part := by
  unfold hyphenated
  split
  · simp_all
  · have h : ('-' ∈ alnumAZ09) = False := by decide
    rw [List.filter_cons]
    simp only [h, decide_False, Bool.false_eq_true, if_false]
    exact filter_mem_self hm

theorem hyphenated_mem (part : List Char) (hm : ∀ c ∈ part, c ∈ alnumAZ09) :
    ∀ c ∈ hyphenated part, c ∈ '-' :: alnumAZ09 := by
  unfold hyphenated
  split
  · simp
  · intro c hc
    rcases List.mem_cons.1 hc with h | h
    · simp [h]
    · exact List.mem_cons_of_mem _ (hm c h)

theorem upperAZ_subset : ∀ c ∈ upperAZ, c ∈ alnumAZ09 := by decide

theorem digit09_subset : ∀ c ∈ digit09, c ∈ alnumAZ09 := by decide

theorem swiftFormat_congr {v w : JsValue} (h : swiftRaw v = swiftRaw w) :
    swiftFormat v = swiftFormat w := by
  apply String.ext
  rw [swiftFormat_data, swiftFormat_data, h]

/-- C1, amended: when the per-segment filters drop nothing (the cleaned input
has only letters in positions 0 to 5 and only digits in positions 8 to 11),
formatting the formatted value again leaves it unchanged. -/
theorem swiftFormat_idempotent_of_clean (value : JsValue)
    (hletters : ∀ c ∈ (slice (swiftRaw value) 0 6).data, c ∈ upperAZ)
    (hdigits : ∀ c ∈ (slice (swiftRaw value) 8 12).data, c ∈ digit09) :
    swiftFormat (.str (swiftFormat value)) = swiftFormat value := by
  apply swiftFormat_congr
  apply String.ext
  have hraw := swiftRaw_mem value
  have hlen := swiftRaw_length value
  simp only [slice, List.drop_zero, Nat.sub_zero] at hletters hdigits
  have e6 : (swiftRaw value).data.take 6
      = (swiftRaw value).data.take 4 ++ ((swiftRaw value).data.drop 4).take 2 :=
    List.take_add (swiftRaw value).data 4 2
  have h1 : ((swiftRaw value).data.take 4).filter (· ∈ upperAZ) = (swiftRaw value).data.take 4 :=
    filter_mem_self fun c hc => hletters c (by rw [e6]; exact List.mem_append_left _ hc)
  have h2 : (((swiftRaw value).data.drop 4).take 2).filter (· ∈ upperAZ)
      = ((swiftRaw value).data.drop 4).take 2 :=
    filter_mem_self fun c hc => hletters c (by rw [e6]; exact List.mem_append_right _ hc)
  have h4 : (((swiftRaw value).data.drop 8).take 4).filter (· ∈ digit09)
      = ((swiftRaw value).data.drop 8).take 4 :=
    filter_mem_self fun c hc => hdigits c hc
  have m1 : ∀ c ∈ (swiftRaw value).data.take 4, c ∈ alnumAZ09 :=
    fun c hc => hraw c (List.mem_of_mem_take hc)
  have m2 : ∀ c ∈ ((swiftRaw value).data.drop 4).take 2, c ∈ alnumAZ09 :=
    fun c hc => hraw c (List.mem_of_mem_drop (List.mem_of_mem_take hc))
  have m3 : ∀ c ∈ ((swiftRaw value).data.drop 6).take 2, c ∈ alnumAZ09 :=
    fun c hc => hraw c (List.mem_of_mem_drop (List.mem_of_mem_take hc))
  have m4 : ∀ c ∈ ((swiftRaw value).data.drop 8).take 4, c ∈ alnumAZ09 :=
    fun c hc => hraw c (List.mem_of_mem_drop (List.mem_of_mem_take hc))
  have hd := swiftFormat_data value
  rw [h1, h2, h4] at hd
  have hfix : ∀ c ∈ (swiftFormat value).data, c ∈ '-' :: alnumAZ09 := by
    rw [hd]
    intro c hc
    simp only [List.mem_append] at hc
    rcases hc with ((hc | hc) | hc) | hc
    · exact List.mem_cons_of_mem _ (m1 c hc)
    · exact hyphenated_mem _ m2 c hc
    · exact hyphenated_mem _ m3 c hc
    · exact hyphenated_mem _ m4 c hc
  rw [swiftRaw_data (.str (swiftFormat value))]
  show (((swiftFormat value).data.flatMap upperChar).filter (· ∈ alnumAZ09)).take 12 = _
  rw [flatMap_upperChar_fixed _ hfix, hd]
  simp only [List.filter_append]
  rw [filter_mem_self m1, filter_hyphenated _ m2, filter_hyphenated _ m3, filter_hyphenated _ m4]
  have e12 : (swiftRaw value).data.take 4 ++ ((swiftRaw value).data.drop 4).take 2
        ++ ((swiftRaw value).data.drop 6).take 2 ++ ((swiftRaw value).data.drop 8).take 4
      = (swiftRaw value).data.take 12 := by
    rw [← List.take_add (swiftRaw value).data 4 2, ← List.take_add (swiftRaw value).data 6 2,
      ← List.take_add (swiftRaw value).data 8 4]
  rw [e12, List.take_take, Nat.min_self, List.take_of_length_le hlen]

/-- Witness for the amended C1 at `"abcdef12345678"`. -/
theorem swiftFormat_idempotent_of_clean_witness :
    swiftFormat (.str (swiftFormat (.str "abcdef12345678")))
      = swiftFormat (.str "abcdef12345678") :=
  swiftFormat_idempotent_of_clean (.str "abcdef12345678") (by decide) (by decide)


/-! ## Common validation -/

theorem validateCommon_cases (s : Screen) :
    (validateCommon s = some "Please enter recipient name." ↔ trim s.form.name = "")
    ∧ (validateCommon s = some "Please enter bank name."
        ↔ trim s.form.name ≠ "" ∧ trim s.form.bankName = "")
    ∧ (validateCommon s = some "Please enter account number."
        ↔ trim s.form.name ≠ "" ∧ trim s.form.bankName ≠ "" ∧ trim s.form.accountNo = "")
    ∧ (validateCommon s = some "Amount (INR) must be greater than 0."
        ↔ trim s.form.name ≠ "" ∧ trim s.form.bankName ≠ "" ∧ trim s.form.accountNo ≠ ""
          ∧ (toNumber (.str s.form.amountInInr)).gt (JsNumber.lit 0 1) = false)
    ∧ (validateCommon s = none
        ↔ trim s.form.name ≠ "" ∧ trim s.form.bankName ≠ "" ∧ trim s.form.accountNo ≠ ""
          ∧ (toNumber (.str s.form.amountInInr)).gt (JsNumber.lit 0 1) = true) := by
  unfold validateCommon amountInInr
  split_ifs with h1 h2 h3 h4 <;> simp_all

theorem toNumber_zero_text : toNumber (.str "0") = JsNumber.lit 0 1 := by decide

set_option exponentiation.threshold 4000 in
theorem zero_not_gt_zero : (JsNumber.lit 0 1).gt (JsNumber.lit 0 1) = false := by decide

/-- C4: `validateCommon` returns the message of the first failing rule, in the
order recipient name, bank name, account number, amount, and `null` exactly
when all four rules pass; with the three text fields filled, the amount `"0"`
is rejected with the amount message. -/
theorem validateCommon_first_failure (s : Screen) :
    (validateCommon s = some "Please enter recipient name." ↔ trim s.form.name = "")
    ∧ (validateCommon s = some "Please enter bank name."
        ↔ trim s.form.name ≠ "" ∧ trim s.form.bankName = "")
    ∧ (validateCommon s = some "Please enter account number."
        ↔ trim s.form.name ≠ "" ∧ trim s.form.bankName ≠ "" ∧ trim s.form.accountNo = "")
    ∧ (validateCommon s = some "Amount (INR) must be greater than 0."
        ↔ trim s.form.name ≠ "" ∧ trim s.form.bankName ≠ "" ∧ trim s.form.accountNo ≠ ""
          ∧ (toNumber (.str s.form.amountInInr)).gt (JsNumber.lit 0 1) = false)
    ∧ (validateCommon s = none
        ↔ trim s.form.name ≠ "" ∧ trim s.form.bankName ≠ "" ∧ trim s.form.accountNo ≠ ""
          ∧ (toNumber (.str s.form.amountInInr)).gt (JsNumber.lit 0 1) = true)
    ∧ (trim s.form.name ≠ "" → trim s.form.bankName ≠ "" → trim s.form.accountNo ≠ ""
        → s.form.amountInInr = "0"
        → validateCommon s = some "Amount (INR) must be greater than 0.") := by
  obtain ⟨h1, h2, h3, h4, h5⟩ := validateCommon_cases s
  refine ⟨h1, h2, h3, h4, h5, ?_⟩
  intro n b a hz
  rw [h4, hz, toNumber_zero_text]
  exact ⟨n, b, a, zero_not_gt_zero⟩

/-- The form of the end-to-end scenario with the amount `"0"`. -/
theorem validateCommon_first_failure_witness :
    validateCommon { initialScreen with form := { initialForm with
        name := "Jane", bankName := "ABC Bank", accountNo := "123", amountInInr := "0" } }
      = some "Amount (INR) must be greater than 0." :=
  (validateCommon_first_failure _).2.2.2.2.2 (by decide) (by decide) (by decide) rfl


/-! ## IBAN and SWIFT validation -/

open RegularExpression in
theorem between_rmatch_iff (cs : List Char) (lo hi : Nat) (hle : lo ≤ hi) (x : List Char) :
    (between (cls cs) lo hi).rmatch x ↔ lo ≤ x.length ∧ x.length ≤ hi ∧ ∀ c ∈ x, c ∈ cs := by
  unfold between
  rw [mul_rmatch_iff]
  constructor
  · rintro ⟨t, u, rfl, ht, hu⟩
    obtain ⟨ht1, ht2⟩ := (exactly_rmatch_iff cs lo t).1 ht
    obtain ⟨hu1, hu2⟩ := (upTo_rmatch_iff cs (hi - lo) u).1 hu
    refine ⟨by simp [ht1], by simp only [List.length_append]; omega, ?_⟩
    intro c hc
    rcases List.mem_append.1 hc with h | h
    · exact ht2 c h
    · exact hu2 c h
  · rintro ⟨h1, h2, h3⟩
    refine ⟨x.take lo, x.drop lo, (List.take_append_drop lo x).symm, ?_, ?_⟩
    · exact (exactly_rmatch_iff cs lo _).2
        ⟨by simp [h1], fun c hc => h3 c (List.mem_of_mem_take hc)⟩
    · exact (upTo_rmatch_iff cs (hi - lo) _).2
        ⟨by simp only [List.length_drop]; omega, fun c hc => h3 c (List.mem_of_mem_drop hc)⟩

theorem test_ibanExact_iff (s : String) :
    test ibanExact s = true ↔ s.data.length = 34 ∧ ∀ c ∈ s.data, c ∈ alnumAZ09 :=
  exactly_rmatch_iff alnumAZ09 34 s.data

theorem test_ibanLoose_iff (s : String) :
    test ibanLoose s = true
      ↔ 8 ≤ s.data.length ∧ s.data.length ≤ 34 ∧ ∀ c ∈ s.data, c ∈ alnumAZ09 :=
  between_rmatch_iff alnumAZ09 8 34 (by decide) s.data

theorem alnum_not_whiteSpace : ∀ c ∈ alnumAZ09, c ∉ jsWhiteSpace := by decide

theorem upperChar_whiteSpace : ∀ c ∈ jsWhiteSpace, upperChar c = [c] := by decide

theorem jsLength_of_alnum (l : List Char) (h : ∀ c ∈ l, c ∈ alnumAZ09) :
    jsLength ⟨l⟩ = l.length := by
  unfold jsLength
  induction l with
  | nil => rfl
  | cons a l ih =>
    have ha : ∀ c ∈ alnumAZ09, c.toNat < 0x10000 := by decide
    have h1 := ha a (h a (List.mem_cons_self a l))
    have h2 := ih fun c hc => h c (List.mem_cons_of_mem a hc)
    simp only [List.map_cons, List.sum_cons, List.length_cons] at h2 ⊢
    rw [h2, if_pos h1]
    omega

theorem toUpperCase_fixed (s : String) (h : ∀ c ∈ s.data, c ∈ alnumAZ09) :
    toUpperCase s = s := by
  apply String.ext
  exact flatMap_upperChar_fixed s.data fun c hc => List.mem_cons_of_mem _ (h c hc)

theorem removeAll_whiteSpace_fixed (s : String) (h : ∀ c ∈ s.data, c ∉ jsWhiteSpace) :
    removeAll jsWhiteSpace s = s := by
  apply String.ext
  exact List.filter_eq_self.2 fun c hc => by simpa using h c hc

/-- A string whose upper-case form is alphanumeric holds no white space. -/
theorem no_whiteSpace_of_upper_alnum (s : String)
    (h : ∀ c ∈ (toUpperCase s).data, c ∈ alnumAZ09) : ∀ c ∈ s.data, c ∉ jsWhiteSpace := by
  intro c hc hw
  have hu : c ∈ (toUpperCase s).data := by
    show c ∈ s.data.flatMap upperChar
    exact List.mem_flatMap.2 ⟨c, hc, by rw [upperChar_whiteSpace c hw]; exact List.mem_singleton_self c⟩
  exact alnum_not_whiteSpace c (h c hu) hw

theorem ibanRule_iff (x : String) :
    ibanRule x = true ↔ test ibanExact (toUpperCase x) = true := by
  constructor
  · intro h
    simp only [ibanRule, Bool.and_eq_true] at h
    exact h.1.2
  · intro h
    obtain ⟨hlen, hmem⟩ := (test_ibanExact_iff _).1 h
    simp only [ibanRule, Bool.and_eq_true, decide_eq_true_eq]
    refine ⟨⟨?_, h⟩, ?_⟩
    · have := jsLength_of_alnum (toUpperCase x).data hmem
      rw [← hlen]
      exact this
    · unfold isValidIban JsValue.nullToEmpty
      rw [removeAll_whiteSpace_fixed _ fun c hc => alnum_not_whiteSpace c (hmem c hc),
        toUpperCase_fixed _ hmem, test_ibanLoose_iff]
      exact ⟨by omega, by omega, hmem⟩

theorem isValidIban_of_exact (x : String) (h : test ibanExact (toUpperCase x) = true) :
    isValidIban (.str x) = true := by
  obtain ⟨hlen, hmem⟩ := (test_ibanExact_iff _).1 h
  unfold isValidIban JsValue.nullToEmpty
  rw [removeAll_whiteSpace_fixed _ (no_whiteSpace_of_upper_alnum x hmem), test_ibanLoose_iff]
  exact ⟨by omega, by omega, hmem⟩

theorem trim_ne_empty_of_upper_alnum (x : String)
    (h : test ibanExact (toUpperCase x) = true) : trim x ≠ "" := by
  obtain ⟨hlen, hmem⟩ := (test_ibanExact_iff _).1 h
  have hws := no_whiteSpace_of_upper_alnum x hmem
  have hne : x.data ≠ [] := by
    intro h0
    have : (toUpperCase x).data = [] := by
      show x.data.flatMap upperChar = []
      rw [h0]; rfl
    rw [this] at hlen
    simp at hlen
  intro ht
  have hd : (trim x).data = [] := by rw [ht]
  have e1 : trimStart x.data = x.data := by
    unfold trimStart
    cases hx : x.data with
    | nil => rfl
    | cons a l =>
      have : a ∉ jsWhiteSpace := hws a (by rw [hx]; exact List.mem_cons_self a l)
      simp [List.dropWhile_cons, this]
  have e2 : trimStart x.data.reverse = x.data.reverse := by
    unfold trimStart
    cases hx : x.data.reverse with
    | nil => rfl
    | cons a l =>
      have : a ∉ jsWhiteSpace :=
        hws a (List.mem_reverse.1 (by rw [hx]; exact List.mem_cons_self a l))
      simp [List.dropWhile_cons, this]
  have : (trim x).data = x.data := by
    show (trimStart (trimStart x.data).reverse).reverse = x.data
    rw [e1, e2, List.reverse_reverse]
  rw [this] at hd
  exact hne hd


theorem validateInternational_cases (s : Screen) :
    (validateInternational s = some "Please select a country." ↔ s.form.country = "")
    ∧ (validateInternational s = some "Please enter IBAN."
        ↔ s.form.country ≠ "" ∧ trim s.form.iban = "")
    ∧ (validateInternational s = some "IBAN must be exactly 34 alphanumeric characters."
        ↔ s.form.country ≠ "" ∧ trim s.form.iban ≠ ""
          ∧ test ibanExact (toUpperCase s.form.iban) = false)
    ∧ (validateInternational s = some "Please enter SWIFT code."
        ↔ s.form.country ≠ "" ∧ trim s.form.iban ≠ ""
          ∧ test ibanExact (toUpperCase s.form.iban) = true ∧ trim s.form.swift = "")
    ∧ (validateInternational s
          = some "SWIFT must match AAAA-BB-CC-1234 format (last 4 digits only)."
        ↔ s.form.country ≠ "" ∧ trim s.form.iban ≠ ""
          ∧ test ibanExact (toUpperCase s.form.iban) = true ∧ trim s.form.swift ≠ ""
          ∧ test swiftPattern (toUpperCase s.form.swift) = false)
    ∧ (validateInternational s = none
        ↔ s.form.country ≠ "" ∧ trim s.form.iban ≠ ""
          ∧ test ibanExact (toUpperCase s.form.iban) = true ∧ trim s.form.swift ≠ ""
          ∧ test swiftPattern (toUpperCase s.form.swift) = true) := by
  have hr : ibanRule s.form.iban = test ibanExact (toUpperCase s.form.iban) := by
    rw [Bool.eq_iff_iff]
    exact ibanRule_iff s.form.iban
  unfold validateInternational isValidSwift JsValue.nullToEmpty
  rw [hr]
  split_ifs with h1 h2 h3 h4 h5 <;> simp_all

theorem swift_examples :
    test swiftPattern (toUpperCase "ABCD-EF-12-3456") = true
      ∧ test swiftPattern (toUpperCase "ABCD-EF-12-345") = false
      ∧ trim "ABCD-EF-12-3456" ≠ "" ∧ trim "ABCD-EF-12-345" ≠ "" := by
  decide

/-- C5: `validateInternational` returns the message of the first failing rule,
in the order country, IBAN blank, IBAN not 34 alphanumerics once upper-cased,
SWIFT blank, SWIFT not of the shape `AAAA-BB-CC-1234` once upper-cased, and
`null` exactly when all five rules pass; with a country and an IBAN of 34
alphanumerics, `"ABCD-EF-12-3456"` is accepted and `"ABCD-EF-12-345"` is
rejected with the SWIFT-format message. -/
theorem validateInternational_first_failure (s : Screen) :
    (validateInternational s = some "Please select a country." ↔ s.form.country = "")
    ∧ (validateInternational s = some "Please enter IBAN."
        ↔ s.form.country ≠ "" ∧ trim s.form.iban = "")
    ∧ (validateInternational s = some "IBAN must be exactly 34 alphanumeric characters."
        ↔ s.form.country ≠ "" ∧ trim s.form.iban ≠ ""
          ∧ test ibanExact (toUpperCase s.form.iban) = false)
    ∧ (validateInternational s = some "Please enter SWIFT code."
        ↔ s.form.country ≠ "" ∧ trim s.form.iban ≠ ""
          ∧ test ibanExact (toUpperCase s.form.iban) = true ∧ trim s.form.swift = "")
    ∧ (validateInternational s
          = some "SWIFT must match AAAA-BB-CC-1234 format (last 4 digits only)."
        ↔ s.form.country ≠ "" ∧ trim s.form.iban ≠ ""
          ∧ test ibanExact (toUpperCase s.form.iban) = true ∧ trim s.form.swift ≠ ""
          ∧ test swiftPattern (toUpperCase s.form.swift) = false)
    ∧ (validateInternational s = none
        ↔ s.form.country ≠ "" ∧ trim s.form.iban ≠ ""
          ∧ test ibanExact (toUpperCase s.form.iban) = true ∧ trim s.form.swift ≠ ""
          ∧ test swiftPattern (toUpperCase s.form.swift) = true)
    ∧ (s.form.country ≠ "" → test ibanExact (toUpperCase s.form.iban) = true
        → s.form.swift = "ABCD-EF-12-3456" → validateInternational s = none)
    ∧ (s.form.country ≠ "" → test ibanExact (toUpperCase s.form.iban) = true
        → s.form.swift = "ABCD-EF-12-345"
        → validateInternational s
            = some "SWIFT must match AAAA-BB-CC-1234 format (last 4 digits only).") := by
  obtain ⟨h1, h2, h3, h4, h5, h6⟩ := validateInternational_cases s
  refine ⟨h1, h2, h3, h4, h5, h6, ?_, ?_⟩
  · intro hc hi hs
    rw [h6, hs]
    exact ⟨hc, trim_ne_empty_of_upper_alnum _ hi, hi, swift_examples.2.2.1, swift_examples.1⟩
  · intro hc hi hs
    rw [h5, hs]
    exact ⟨hc, trim_ne_empty_of_upper_alnum _ hi, hi, swift_examples.2.2.2, swift_examples.2.1⟩

/-- An International form with a country, an IBAN of 34 alphanumerics and the
SWIFT code `"ABCD-EF-12-3456"` passes. -/
theorem validateInternational_first_failure_witness :
    validateInternational { initialScreen with
        transferType := .INTERNATIONAL,
        form := { initialForm with country := "Germany",
                                   iban := "GB82WEST12345698765432GB82WEST1234",
                                   swift := "ABCD-EF-12-3456" } } = none :=
  (validateInternational_first_failure _).2.2.2.2.2.2.1 (by decide)
    ((test_ibanExact_iff _).2 (by decide)) rfl

theorem onPay_international_alert (s : Screen) (random : JsNumber) (now : Nat)
    (message : String) (hi : s.transferType = .INTERNATIONAL)
    (hc : validateCommon s = none) (hv : validateInternational s = some message)
    (hne : message ≠ "") : onPay s random now = .alert "Validation" message := by
  unfold onPay
  simp [hc, truthy, isInternational, hi, hv, hne]

/-- C6: the IBAN rule of `validateInternational` accepts `x` exactly when `x`
upper-cased matches `^[A-Z0-9]{34}$`, and every such `x` satisfies
`isValidIban`; not conversely: `"GB82WEST12345698765432"` satisfies
`isValidIban`, fails the rule, and an International form with a country and
that IBAN is rejected with the exact-34 message, by `validateInternational`
and so by `onPay` once the common rules pass. -/
theorem ibanRule_exact_34 (x : String) :
    (ibanRule x = true ↔ test ibanExact (toUpperCase x) = true)
    ∧ (test ibanExact (toUpperCase x) = true → isValidIban (.str x) = true)
    ∧ isValidIban (.str "GB82WEST12345698765432") = true
    ∧ ibanRule "GB82WEST12345698765432" = false
    ∧ (∀ s : Screen, s.form.country ≠ "" → s.form.iban = "GB82WEST12345698765432"
        → validateInternational s
            = some "IBAN must be exactly 34 alphanumeric characters.")
    ∧ (∀ (s : Screen) (random : JsNumber) (now : Nat), s.transferType = .INTERNATIONAL
        → validateCommon s = none → s.form.country ≠ ""
        → s.form.iban = "GB82WEST12345698765432"
        → onPay s random now
            = .alert "Validation" "IBAN must be exactly 34 alphanumeric characters.") := by
  have hloose : isValidIban (.str "GB82WEST12345698765432") = true := by
    unfold isValidIban
    rw [test_ibanLoose_iff]
    decide
  have hexact : test ibanExact (toUpperCase "GB82WEST12345698765432") = false := by
    rw [← Bool.not_eq_true, test_ibanExact_iff]
    decide
  have hrej : ∀ s : Screen, s.form.country ≠ "" → s.form.iban = "GB82WEST12345698765432"
      → validateInternational s
          = some "IBAN must be exactly 34 alphanumeric characters." := by
    intro s hc hi
    rw [(validateInternational_cases s).2.2.1, hi]
    exact ⟨hc, by decide, hexact⟩
  refine ⟨ibanRule_iff x, isValidIban_of_exact x, hloose, ?_, hrej, ?_⟩
  · rw [← Bool.not_eq_true, ibanRule_iff, Bool.not_eq_true]
    exact hexact
  · intro s random now hi hc hcountry hiban
    exact onPay_international_alert s random now _ hi hc (hrej s hcountry hiban) (by decide)

/-- The IBAN rule at an IBAN of 34 alphanumerics. -/
theorem ibanRule_exact_34_witness :
    isValidIban (.str "gb82west12345698765432gb82west1234") = true :=
  (ibanRule_exact_34 "gb82west12345698765432gb82west1234").2.1
    ((test_ibanExact_iff _).2 (by decide))


/-! ## Paying -/

theorem validateCommon_congr {s₁ s₂ : Screen} (hname : s₁.form.name = s₂.form.name)
    (hbank : s₁.form.bankName = s₂.form.bankName)
    (haccount : s₁.form.accountNo = s₂.form.accountNo)
    (hamount : s₁.form.amountInInr = s₂.form.amountInInr) :
    validateCommon s₁ = validateCommon s₂ := by
  unfold validateCommon amountInInr
  rw [hname, hbank, haccount, hamount]

theorem truthy_validateCommon (s : Screen) :
    truthy (validateCommon s) = true ↔ validateCommon s ≠ none := by
  unfold validateCommon
  split_ifs <;> simp [truthy]

theorem onPay_domestic (s : Screen) (random : JsNumber) (now : Nat)
    (hd : s.transferType = .DOMESTIC) :
    onPay s random now
      = match validateCommon s with
        | some message => .alert "Validation" message
        | none => .setStatusModal { visible := true, ok := random.gt (JsNumber.lit 1 10),
                                    ref := "TXN" ++ sliceLast (toString now) 8 } := by
  have ht := truthy_validateCommon s
  unfold onPay
  cases hv : validateCommon s with
  | none => simp [truthy, isInternational, hd]
  | some message =>
    rw [hv] at ht
    simp [ht]

/-- C7: for a Domestic transfer, two screen states that agree on `name`,
`bankName`, `accountNo` and `amountInInr` get the same outcome from `onPay`
whatever their `country`, `iban` and `swift` are, and `onPay` proceeds to the
status modal exactly when `validateCommon` returns `null`. -/
theorem onPay_domestic_ignores_international (s₁ s₂ : Screen) (random : JsNumber) (now : Nat)
    (hd₁ : s₁.transferType = .DOMESTIC) (hd₂ : s₂.transferType = .DOMESTIC)
    (hname : s₁.form.name = s₂.form.name) (hbank : s₁.form.bankName = s₂.form.bankName)
    (haccount : s₁.form.accountNo = s₂.form.accountNo)
    (hamount : s₁.form.amountInInr = s₂.form.amountInInr) :
    onPay s₁ random now = onPay s₂ random now
      ∧ ((∃ value, onPay s₁ random now = .setStatusModal value) ↔ validateCommon s₁ = none)
      ∧ ((∃ message, onPay s₁ random now = .alert "Validation" message
            ∧ validateCommon s₁ = some message) ↔ validateCommon s₁ ≠ none) := by
  rw [onPay_domestic s₁ random now hd₁, onPay_domestic s₂ random now hd₂,
    validateCommon_congr hname hbank haccount hamount]
  cases validateCommon s₂ <;> simp

set_option exponentiation.threshold 4000 in
/-- Two Domestic forms with the same common fields, one with the international
fields filled with text no International form would pass with, both proceed. -/
theorem onPay_domestic_ignores_international_witness :
    onPay { initialScreen with form := { initialForm with
              name := "Jane", bankName := "ABC Bank", accountNo := "123", amountInInr := "500" } }
        (JsNumber.lit 1 2) 1730000012345
      = onPay { initialScreen with form := { initialForm with
              name := "Jane", bankName := "ABC Bank", accountNo := "123", amountInInr := "500",
              country := "Nowhere", iban := "x", swift := "y" } }
        (JsNumber.lit 1 2) 1730000012345
    ∧ onPay { initialScreen with form := { initialForm with
              name := "Jane", bankName := "ABC Bank", accountNo := "123", amountInInr := "500" } }
        (JsNumber.lit 1 2) 1730000012345
      = .setStatusModal { visible := true, ok := true, ref := "TXN00012345" } :=
  ⟨(onPay_domestic_ignores_international _ _ (JsNumber.lit 1 2) 1730000012345
      rfl rfl rfl rfl rfl rfl).1, by decide⟩

/-! ## Leaving the status modal -/

/-- C10: from every screen state `onNewPayment` leaves every form field empty,
the transfer type Domestic and the status modal hidden, whereas
`onCloseStatus` hides the status modal and changes nothing else. -/
theorem onNewPayment_resets_onCloseStatus_keeps (s : Screen) :
    (onNewPayment s).form.name = "" ∧ (onNewPayment s).form.bankName = ""
    ∧ (onNewPayment s).form.accountNo = "" ∧ (onNewPayment s).form.amountInInr = ""
    ∧ (onNewPayment s).form.remark = "" ∧ (onNewPayment s).form.country = ""
    ∧ (onNewPayment s).form.iban = "" ∧ (onNewPayment s).form.swift = ""
    ∧ (onNewPayment s).transferType = .DOMESTIC
    ∧ (onNewPayment s).statusModal.visible = false
    ∧ (onCloseStatus s).statusModal.visible = false
    ∧ (onCloseStatus s).form = s.form
    ∧ (onCloseStatus s).transferType = s.transferType
    ∧ onCloseStatus s = { s with statusModal := { s.statusModal with visible := false } } := by
  simp [onNewPayment, onCloseStatus, dispatch, formReducer, initialForm]

/-! ## Parsing amounts -/

theorem toNumber_isFinite (v : JsValue) : (toNumber v).isFinite = true := by
  unfold toNumber
  dsimp only
  split_ifs with h
  · exact h
  · decide

/-- C8: `toNumber` is total and its result is always finite: it is the Number
parsed from the text (the empty text for `null` and `undefined`) with its
commas removed and its ends trimmed when that Number is finite, and `0` when it
is `NaN` or infinite; `"10,000"` gives 10000, `"abc"` and `null` give 0. -/
theorem toNumber_finite_parse_or_zero (v : JsValue) :
    (toNumber v).isFinite = true
    ∧ ((Number (trim (removeAll [','] v.nullToEmpty))).isFinite = true
        → toNumber v = Number (trim (removeAll [','] v.nullToEmpty)))
    ∧ ((Number (trim (removeAll [','] v.nullToEmpty))).isFinite = false
        → toNumber v = JsNumber.lit 0 1)
    ∧ JsValue.nullToEmpty .null = "" ∧ JsValue.nullToEmpty .undefined = ""
    ∧ toNumber (.str "10,000") = JsNumber.lit 10000 1
    ∧ (toNumber (.str "10,000")).toRat = some 10000
    ∧ Number "abc" = .nan
    ∧ toNumber (.str "abc") = JsNumber.lit 0 1
    ∧ toNumber .null = JsNumber.lit 0 1
    ∧ toNumber .undefined = JsNumber.lit 0 1
    ∧ (JsNumber.lit 0 1).toRat = some 0 := by
  refine ⟨toNumber_isFinite v, ?_, ?_, rfl, rfl, by decide, ?_, by decide, by decide, by decide,
    by decide, ?_⟩
  · intro h
    unfold toNumber
    dsimp only
    rw [if_pos h]
  · intro h
    unfold toNumber
    dsimp only
    rw [if_neg (by simp [h])]
  · have h : toNumber (.str "10,000") = .finite false 5497558138880000 (-39) := by decide
    rw [h]
    norm_num [JsNumber.toRat]
  · have h : JsNumber.lit 0 1 = .finite false 0 (-1074) := by decide
    rw [h]
    norm_num [JsNumber.toRat]


/-! ## Rounding to the nearest Number -/

theorem bitLenAux_zero (fuel : Nat) : bitLenAux fuel 0 = 0 := by
  cases fuel <;> simp [bitLenAux]

theorem bitLenAux_spec (fuel n : Nat) (h : n ≤ fuel) :
    n < 2 ^ bitLenAux fuel n ∧ (n ≠ 0 → 2 ^ (bitLenAux fuel n - 1) ≤ n) := by
  induction fuel generalizing n with
  | zero =>
    have : n = 0 := Nat.le_zero.1 h
    subst this
    simp [bitLenAux]
  | succ f ih =>
    by_cases hn : n = 0
    · subst hn
      simp [bitLenAux]
    · have hle : n / 2 ≤ f := by omega
      obtain ⟨h1, h2⟩ := ih (n / 2) hle
      have e : bitLenAux (f + 1) n = bitLenAux f (n / 2) + 1 := by simp [bitLenAux, hn]
      rw [e]
      constructor
      · rw [Nat.pow_succ]
        omega
      · intro _
        rw [Nat.add_sub_cancel]
        by_cases h0 : n / 2 = 0
        · rw [h0, bitLenAux_zero]
          simp
          omega
        · have h3 := h2 h0
          have hk : bitLenAux f (n / 2) ≠ 0 := by
            intro hk
            rw [hk] at h1
            simp at h1
            exact h0 h1
          obtain ⟨k, hk'⟩ := Nat.exists_eq_succ_of_ne_zero hk
          rw [hk'] at h3 ⊢
          rw [Nat.succ_sub_one] at h3
          rw [Nat.pow_succ]
          omega

theorem bitLen_spec (n : Nat) (hn : n ≠ 0) :
    1 ≤ bitLen n ∧ 2 ^ (bitLen n - 1) ≤ n ∧ n < 2 ^ bitLen n := by
  obtain ⟨h1, h2⟩ := bitLenAux_spec n n (le_refl n)
  refine ⟨?_, h2 hn, h1⟩
  by_contra h
  have : bitLen n = 0 := by omega
  unfold bitLen at this
  rw [this] at h1
  simp at h1
  exact hn h1

/-- The exponent `floorLog2Ratio` finds brackets the ratio between two powers of 2. -/
theorem floorLog2Ratio_spec (a b : Nat) (ha : a ≠ 0) (hb : b ≠ 0) :
    (2 : ℚ) ^ floorLog2Ratio a b ≤ (a : ℚ) / b
      ∧ (a : ℚ) / b < (2 : ℚ) ^ (floorLog2Ratio a b + 1) := by
  obtain ⟨a1, a2, a3⟩ := bitLen_spec a ha
  obtain ⟨b1, b2, b3⟩ := bitLen_spec b hb
  have hbq : (0 : ℚ) < b := by exact_mod_cast Nat.pos_of_ne_zero hb
  have h2 : (2 : ℚ) ≠ 0 := by norm_num
  have qa2 : (2 : ℚ) ^ (bitLen a - 1) ≤ a := by exact_mod_cast a2
  have qa3 : (a : ℚ) < 2 ^ bitLen a := by exact_mod_cast a3
  have qb2 : (2 : ℚ) ^ (bitLen b - 1) ≤ b := by exact_mod_cast b2
  have qb3 : (b : ℚ) < 2 ^ bitLen b := by exact_mod_cast b3
  have ea : (2 : ℚ) ^ bitLen a = 2 ^ (bitLen a - 1) * 2 := by
    rw [← pow_succ]; congr 1; omega
  have eb : (2 : ℚ) ^ bitLen b = 2 ^ (bitLen b - 1) * 2 := by
    rw [← pow_succ]; congr 1; omega
  have pa : (0 : ℚ) < 2 ^ (bitLen a - 1) := by positivity
  have pb : (0 : ℚ) < 2 ^ (bitLen b - 1) := by positivity
  have pa' : (0 : ℚ) < 2 ^ bitLen a := by positivity
  have pb' : (0 : ℚ) < 2 ^ bitLen b := by positivity
  have ed : (2 : ℚ) ^ ((bitLen a : ℤ) - (bitLen b : ℤ)) = 2 ^ bitLen a / 2 ^ bitLen b := by
    rw [zpow_sub₀ h2, zpow_natCast, zpow_natCast]
  unfold floorLog2Ratio
  dsimp only
  split_ifs with hc
  · have qc : (b : ℚ) * 2 ^ bitLen a ≤ a * 2 ^ bitLen b := by exact_mod_cast hc
    constructor
    · rw [ed, div_le_div_iff₀ pb' hbq]
      linarith
    · rw [zpow_add₀ h2, ed, zpow_one, div_mul_eq_mul_div, div_lt_div_iff₀ hbq pb']
      nlinarith
  · have qc : (a : ℚ) * 2 ^ bitLen b < b * 2 ^ bitLen a := by
      exact_mod_cast Nat.lt_of_not_le hc
    constructor
    · rw [zpow_sub₀ h2, ed, zpow_one, div_div, div_le_div_iff₀ (by positivity) hbq]
      nlinarith
    · rw [sub_add_cancel, ed, div_lt_div_iff₀ hbq pb']
      linarith

theorem roundHalfEven_le (num den bound : Nat) (h : num < bound * den) :
    roundHalfEven num den ≤ bound := by
  have hd : 0 < den := by
    rcases Nat.eq_zero_or_pos den with h0 | h0
    · rw [h0] at h; simp at h
    · exact h0
  have hq : num / den < bound := (Nat.div_lt_iff_lt_mul hd).2 h
  unfold roundHalfEven
  dsimp only
  split_ifs <;> omega

theorem le_roundHalfEven (num den bound : Nat) (hd : 0 < den) (h : bound * den ≤ num) :
    bound ≤ roundHalfEven num den := by
  have hq : bound ≤ num / den := (Nat.le_div_iff_mul_le hd).2 h
  unfold roundHalfEven
  dsimp only
  split_ifs <;> omega

theorem roundHalfEven_exact (m den : Nat) (hd : 0 < den) : roundHalfEven (m * den) den = m := by
  unfold roundHalfEven
  simp [Nat.mul_div_cancel _ hd, hd]


theorem scaledRound_le (a b : Nat) (e : Int) (bound : Nat) (hb : b ≠ 0)
    (h : (a : ℚ) / b < bound * 2 ^ e) : scaledRound a b e ≤ bound := by
  have hbq : (0 : ℚ) < b := by exact_mod_cast Nat.pos_of_ne_zero hb
  unfold scaledRound
  split_ifs with he
  · obtain ⟨n, rfl⟩ := Int.eq_ofNat_of_zero_le he
    rw [Int.toNat_natCast]
    apply roundHalfEven_le
    rw [zpow_natCast, div_lt_iff₀ hbq] at h
    have : (a : ℚ) < ((bound * (b * 2 ^ n) : Nat) : ℚ) := by
      push_cast
      linarith
    exact_mod_cast this
  · obtain ⟨n, hn⟩ := Int.eq_ofNat_of_zero_le (show 0 ≤ -e by omega)
    have he' : e = -(n : ℤ) := by omega
    rw [hn, Int.toNat_natCast]
    apply roundHalfEven_le
    rw [he', zpow_neg, zpow_natCast, div_lt_iff₀ hbq] at h
    have hp : (0 : ℚ) < 2 ^ n := by positivity
    have : ((a * 2 ^ n : Nat) : ℚ) < ((bound * b : Nat) : ℚ) := by
      push_cast
      calc (a : ℚ) * 2 ^ n < bound * (2 ^ n)⁻¹ * b * 2 ^ n := by
            exact mul_lt_mul_of_pos_right h hp
        _ = bound * b := by field_simp
    exact_mod_cast this

theorem le_scaledRound (a b : Nat) (e : Int) (bound : Nat) (hb : b ≠ 0)
    (h : (bound : ℚ) * 2 ^ e ≤ (a : ℚ) / b) : bound ≤ scaledRound a b e := by
  have hbq : (0 : ℚ) < b := by exact_mod_cast Nat.pos_of_ne_zero hb
  have hbn : 0 < b := Nat.pos_of_ne_zero hb
  unfold scaledRound
  split_ifs with he
  · obtain ⟨n, rfl⟩ := Int.eq_ofNat_of_zero_le he
    rw [Int.toNat_natCast]
    apply le_roundHalfEven _ _ _ (by positivity)
    rw [zpow_natCast, le_div_iff₀ hbq] at h
    have : ((bound * (b * 2 ^ n) : Nat) : ℚ) ≤ (a : ℚ) := by
      push_cast
      linarith
    exact_mod_cast this
  · obtain ⟨n, hn⟩ := Int.eq_ofNat_of_zero_le (show 0 ≤ -e by omega)
    have he' : e = -(n : ℤ) := by omega
    rw [hn, Int.toNat_natCast]
    apply le_roundHalfEven _ _ _ hbn
    rw [he', zpow_neg, zpow_natCast, le_div_iff₀ hbq] at h
    have hp : (0 : ℚ) < 2 ^ n := by positivity
    have : ((bound * b : Nat) : ℚ) ≤ ((a * 2 ^ n : Nat) : ℚ) := by
      push_cast
      calc (bound : ℚ) * b = bound * (2 ^ n)⁻¹ * b * 2 ^ n := by field_simp
        _ ≤ a * 2 ^ n := mul_le_mul_of_nonneg_right h hp.le
    exact_mod_cast this

theorem scaledRound_exact (a b : Nat) (e : Int) (m : Nat) (hb : b ≠ 0)
    (h : (a : ℚ) / b = m * 2 ^ e) : scaledRound a b e = m := by
  have hbq : (0 : ℚ) < b := by exact_mod_cast Nat.pos_of_ne_zero hb
  have hbn : 0 < b := Nat.pos_of_ne_zero hb
  unfold scaledRound
  split_ifs with he
  · obtain ⟨n, rfl⟩ := Int.eq_ofNat_of_zero_le he
    rw [Int.toNat_natCast]
    rw [zpow_natCast, div_eq_iff hbq.ne'] at h
    have : a = m * (b * 2 ^ n) := by
      have : (a : ℚ) = ((m * (b * 2 ^ n) : Nat) : ℚ) := by
        push_cast
        linarith
      exact_mod_cast this
    rw [this]
    exact roundHalfEven_exact _ _ (by positivity)
  · obtain ⟨n, hn⟩ := Int.eq_ofNat_of_zero_le (show 0 ≤ -e by omega)
    have he' : e = -(n : ℤ) := by omega
    rw [hn, Int.toNat_natCast]
    rw [he', zpow_neg, zpow_natCast, div_eq_iff hbq.ne'] at h
    have hp : (0 : ℚ) < 2 ^ n := by positivity
    have : a * 2 ^ n = m * b := by
      have : ((a * 2 ^ n : Nat) : ℚ) = ((m * b : Nat) : ℚ) := by
        push_cast
        rw [h]
        field_simp
      exact_mod_cast this
    rw [this]
    exact roundHalfEven_exact _ _ hbn


theorem two_zpow_nat_add (n : Nat) (e : Int) :
    ((2 ^ n : Nat) : ℚ) * 2 ^ e = (2 : ℚ) ^ ((n : ℤ) + e) := by
  rw [zpow_add₀ (by norm_num : (2 : ℚ) ≠ 0), zpow_natCast]
  push_cast
  rfl

/-- What `roundRatio` returns is in canonical form. -/
theorem roundRatio_canonical (negative : Bool) (a b : Nat) (hb : b ≠ 0) :
    (roundRatio negative a b).canonical = true := by
  unfold roundRatio
  split_ifs with ha
  · simp [JsNumber.canonical]
  · obtain ⟨k1, k2⟩ := floorLog2Ratio_spec a b ha hb
    have hle : scaledRound a b (max (floorLog2Ratio a b - 52) (-1074)) ≤ 2 ^ 53 := by
      apply scaledRound_le _ _ _ _ hb
      rw [two_zpow_nat_add]
      refine lt_of_lt_of_le k2 (zpow_le_zpow_right₀ (by norm_num) ?_)
      have := le_max_left (floorLog2Ratio a b - 52) (-1074)
      push_cast
      omega
    have hge : max (floorLog2Ratio a b - 52) (-1074) = floorLog2Ratio a b - 52
        → 2 ^ 52 ≤ scaledRound a b (max (floorLog2Ratio a b - 52) (-1074)) := by
      intro he
      apply le_scaledRound _ _ _ _ hb
      rw [two_zpow_nat_add, he]
      refine le_trans (le_of_eq ?_) k1
      congr 1
      push_cast
      omega
    have hmin := le_max_right (floorLog2Ratio a b - 52) (-1074)
    have hcases := max_choice (floorLog2Ratio a b - 52) (-1074)
    dsimp only
    generalize max (floorLog2Ratio a b - 52) (-1074) = e at hle hge hmin hcases ⊢
    generalize scaledRound a b e = m at hle hge ⊢
    by_cases hm : m = 2 ^ 53
    · rw [if_pos hm]
      dsimp only
      split_ifs with h971
      · rfl
      · simp only [JsNumber.canonical, decide_eq_true_eq]
        refine ⟨by norm_num, by omega, by omega, Or.inl (le_refl _)⟩
    · rw [if_neg hm]
      dsimp only
      split_ifs with h971
      · rfl
      · simp only [JsNumber.canonical, decide_eq_true_eq]
        refine ⟨by omega, hmin, by omega, ?_⟩
        rcases hcases with h | h
        · exact Or.inl (hge h)
        · exact Or.inr h

/-- A ratio that is exactly a Number in canonical form rounds to that Number. -/
theorem roundRatio_exact (negative : Bool) (a b m : Nat) (e : Int) (hb : b ≠ 0) (hm : m ≠ 0)
    (hc : (JsNumber.finite negative m e).canonical = true)
    (h : (a : ℚ) / b = m * 2 ^ e) : roundRatio negative a b = .finite negative m e := by
  simp only [JsNumber.canonical, decide_eq_true_eq] at hc
  obtain ⟨c1, c2, c3, c4⟩ := hc
  have hbq : (0 : ℚ) < b := by exact_mod_cast Nat.pos_of_ne_zero hb
  have hmq : (0 : ℚ) < m := by exact_mod_cast Nat.pos_of_ne_zero hm
  have hp : (0 : ℚ) < 2 ^ e := zpow_pos (by norm_num) e
  have ha : a ≠ 0 := by
    rintro rfl
    rw [Nat.cast_zero, zero_div] at h
    have : (0 : ℚ) < m * 2 ^ e := mul_pos hmq hp
    linarith
  obtain ⟨k1, k2⟩ := floorLog2Ratio_spec a b ha hb
  rw [h] at k1 k2
  have hup : (m : ℚ) * 2 ^ e < (2 : ℚ) ^ ((53 : ℤ) + e) := by
    have : (m : ℚ) < ((2 ^ 53 : Nat) : ℚ) := by exact_mod_cast c1
    have h2 := two_zpow_nat_add 53 e
    push_cast at h2 this
    rw [← h2]
    exact mul_lt_mul_of_pos_right this hp
  have hk_lt : floorLog2Ratio a b < 53 + e :=
    (zpow_lt_zpow_iff_right₀ (by norm_num : (1 : ℚ) < 2)).1 (lt_of_le_of_lt k1 hup)
  have he : max (floorLog2Ratio a b - 52) (-1074) = e := by
    rcases c4 with c4 | c4
    · have hlo : (2 : ℚ) ^ ((52 : ℤ) + e) ≤ (m : ℚ) * 2 ^ e := by
        have : ((2 ^ 52 : Nat) : ℚ) ≤ (m : ℚ) := by exact_mod_cast c4
        have h2 := two_zpow_nat_add 52 e
        push_cast at h2 this
        rw [← h2]
        exact mul_le_mul_of_nonneg_right this hp.le
      have hk_gt : 52 + e < floorLog2Ratio a b + 1 :=
        (zpow_lt_zpow_iff_right₀ (by norm_num : (1 : ℚ) < 2)).1 (lt_of_le_of_lt hlo k2)
      rw [max_eq_left (by omega)]
      omega
    · rw [max_eq_right (by omega)]
      exact c4.symm
  have hs : scaledRound a b e = m := scaledRound_exact a b e m hb h
  unfold roundRatio
  have hne : ¬ m = 2 ^ 53 := by omega
  have h971 : ¬ 971 < e := by omega
  rw [if_neg ha]
  dsimp only
  rw [he, hs, if_neg hne]
  dsimp only
  rw [if_neg h971]

theorem lit_one : JsNumber.lit 1 1 = .finite false (2 ^ 52) (-52) := by decide

/-- Multiplying a finite Number in canonical form by `1` gives it back. -/
theorem mul_one_of_canonical (x : JsNumber) (hf : x.isFinite = true)
    (hc : x.canonical = true) : x.mul (JsNumber.lit 1 1) = x := by
  cases x with
  | nan => simp [JsNumber.isFinite] at hf
  | infinity n => simp [JsNumber.isFinite] at hf
  | finite n m e =>
    rw [lit_one]
    by_cases hm : m = 0
    · subst hm
      have he : e = -1074 := by
        simp only [JsNumber.canonical, decide_eq_true_eq] at hc
        omega
      subst he
      cases n <;> decide
    · have hx : xor n false = n := by cases n <;> rfl
      unfold JsNumber.mul
      dsimp only
      rw [hx]
      split_ifs with he
      · apply roundRatio_exact n _ 1 m e one_ne_zero hm hc
        obtain ⟨k, hk⟩ := Int.eq_ofNat_of_zero_le he
        rw [hk, Int.toNat_natCast]
        have : e = (k : ℤ) + 52 := by omega
        rw [this, zpow_add₀ (by norm_num : (2 : ℚ) ≠ 0), zpow_natCast]
        push_cast
        ring
      · apply roundRatio_exact n _ _ m e (by positivity) hm hc
        obtain ⟨k, hk⟩ := Int.eq_ofNat_of_zero_le (show 0 ≤ -(e + -52) by omega)
        rw [hk, Int.toNat_natCast]
        have : e = 52 - (k : ℤ) := by omega
        rw [this, zpow_sub₀ (by norm_num : (2 : ℚ) ≠ 0), zpow_natCast]
        push_cast
        ring

theorem Number_canonical (s : String) : (Number s).canonical = true := by
  have hr : ∀ base allowed ds, (parseRadix base allowed ds).canonical = true := by
    intro base allowed ds
    unfold parseRadix
    split_ifs
    · exact roundRatio_canonical _ _ _ one_ne_zero
    · rfl
  have hu : ∀ negative cs, (parseUnsigned negative cs).canonical = true := by
    intro negative cs
    unfold parseUnsigned
    split_ifs
    · rfl
    · split
      · unfold ofDecimal
        split_ifs
        · exact roundRatio_canonical _ _ _ one_ne_zero
        · exact roundRatio_canonical _ _ _ (by positivity)
      · rfl
  unfold Number
  split
  · decide
  · split_ifs <;> first | exact hr _ _ _ | exact hu _ _

theorem toNumber_canonical (v : JsValue) : (toNumber v).canonical = true := by
  unfold toNumber
  dsimp only
  split_ifs
  · exact Number_canonical _
  · decide


/-! ## Currency conversion -/

set_option maxRecDepth 4000 in
/-- C9: for an International transfer the converted amount is the amount times
the rate, the rate being the FX table entry of the selected currency when it
is a number and `1` otherwise, so a currency missing from the table leaves the
amount unchanged (100 stays 100, and 100 at the rate 0.012 gives 1.2); for a
Domestic transfer the currency is INR and the converted amount is the parsed
amount whatever the table holds (`"500"` gives 500). -/
theorem converted_amount_times_rate (COUNTRIES : List Country) (FX : FxTable) (s : Screen) :
    fx COUNTRIES FX s = (FX (selectedCurrency COUNTRIES s)).getD (JsNumber.lit 1 1)
    ∧ (s.transferType = .INTERNATIONAL
        → converted COUNTRIES FX s = (amountInInr s).mul (fx COUNTRIES FX s))
    ∧ (s.transferType = .INTERNATIONAL → FX (selectedCurrency COUNTRIES s) = none
        → converted COUNTRIES FX s = amountInInr s)
    ∧ (s.transferType = .DOMESTIC
        → selectedCurrency COUNTRIES s = "INR"
          ∧ converted COUNTRIES FX s = toNumber (.str s.form.amountInInr))
    ∧ selectedCurrency [⟨"Nowhere", "ZZZ"⟩]
          { initialScreen with
              transferType := .INTERNATIONAL,
              form := { initialForm with amountInInr := "100", country := "Nowhere" } } = "ZZZ"
    ∧ converted [⟨"Nowhere", "ZZZ"⟩] (fun _ => none)
          { initialScreen with
              transferType := .INTERNATIONAL,
              form := { initialForm with amountInInr := "100", country := "Nowhere" } }
        = JsNumber.lit 100 1
    ∧ converted [⟨"United States", "USD"⟩]
          (fun c => if c = "USD" then some (JsNumber.lit 12 1000) else none)
          { initialScreen with
              transferType := .INTERNATIONAL,
              form := { initialForm with amountInInr := "100", country := "United States" } }
        = JsNumber.lit 12 10
    ∧ converted COUNTRIES FX
          { initialScreen with form := { initialForm with
              name := "Jane", bankName := "ABC Bank", accountNo := "123", amountInInr := "500" } }
        = JsNumber.lit 500 1 := by
  have hfx : fx COUNTRIES FX s = (FX (selectedCurrency COUNTRIES s)).getD (JsNumber.lit 1 1) := by
    unfold fx
    cases FX (selectedCurrency COUNTRIES s) <;> rfl
  refine ⟨hfx, ?_, ?_, ?_, by decide, by decide, by decide, ?_⟩
  · intro hi
    simp [converted, isInternational, hi]
  · intro hi hnone
    have : converted COUNTRIES FX s = (amountInInr s).mul (fx COUNTRIES FX s) := by
      simp [converted, isInternational, hi]
    rw [this, hfx, hnone]
    exact mul_one_of_canonical _ (toNumber_isFinite _) (toNumber_canonical _)
  · intro hd
    constructor
    · simp [selectedCurrency, isInternational, hd]
    · simp [converted, isInternational, hd, amountInInr]
  · have h : toNumber (.str "500") = JsNumber.lit 500 1 := by decide
    simp [converted, isInternational, initialScreen, amountInInr, initialForm, h]


/-! ## Country picker -/

theorem includes_empty (text : String) : includes text "" = true := by
  unfold includes
  simp

/-- C11: the country picker's filter returns the whole list when the query is
empty after trimming, and otherwise exactly the entries, in their original
order, whose name or currency code, in lower case, contains the trimmed query
in lower case. -/
theorem filtered_by_name_or_currency (toLowerCase : String → String) (query : String)
    (countries : List Country) (hempty : toLowerCase "" = "") :
    (trim query = "" → filtered toLowerCase query countries = countries)
    ∧ (trim query ≠ "" → filtered toLowerCase query countries
        = countries.filter fun c =>
            includes (toLowerCase c.name) (toLowerCase (trim query))
              || includes (toLowerCase c.currency) (toLowerCase (trim query)))
    ∧ List.Sublist (filtered toLowerCase query countries) countries
    ∧ (trim query ≠ "" → ∀ c, c ∈ filtered toLowerCase query countries
        ↔ c ∈ countries
          ∧ (includes (toLowerCase c.name) (toLowerCase (trim query)) = true
              ∨ includes (toLowerCase c.currency) (toLowerCase (trim query)) = true)) := by
  have hfilter : filtered toLowerCase query countries
      = countries.filter fun c =>
          includes (toLowerCase c.name) (toLowerCase (trim query))
            || includes (toLowerCase c.currency) (toLowerCase (trim query)) := by
    unfold filtered
    dsimp only
    split_ifs with hq
    · rw [hq]
      exact (List.filter_eq_self.2 fun c _ => by simp [includes_empty]).symm
    · rfl
  refine ⟨?_, fun _ => hfilter, ?_, ?_⟩
  · intro ht
    unfold filtered
    dsimp only
    rw [ht, hempty, if_pos rfl]
  · rw [hfilter]
    exact List.filter_sublist countries
  · intro _ c
    rw [hfilter, List.mem_filter, Bool.or_eq_true]

/-- The filter at the query `" US "`, with the lower case of ASCII text. -/
theorem filtered_by_name_or_currency_witness :
    filtered lowerAscii " US " [⟨"India", "INR"⟩, ⟨"United States", "USD"⟩,
        ⟨"Australia", "AUD"⟩, ⟨"Germany", "EUR"⟩]
      = [⟨"United States", "USD"⟩, ⟨"Australia", "AUD"⟩]
    ∧ filtered lowerAscii "   " [⟨"India", "INR"⟩, ⟨"United States", "USD"⟩]
      = [⟨"India", "INR"⟩, ⟨"United States", "USD"⟩] :=
  ⟨((filtered_by_name_or_currency lowerAscii " US " [⟨"India", "INR"⟩, ⟨"United States", "USD"⟩,
        ⟨"Australia", "AUD"⟩, ⟨"Germany", "EUR"⟩] rfl).2.1 (by decide)).trans (by decide),
    (filtered_by_name_or_currency lowerAscii "   " [⟨"India", "INR"⟩, ⟨"United States", "USD"⟩]
        rfl).1 (by decide)⟩

/-! ## The form reducer -/

theorem Form.get_set (state : Form) (key : FormKey) (value : String) :
    (state.set key value).get key = value := by
  cases key <;> rfl

theorem Form.get_set_of_ne (state : Form) (key other : FormKey) (value : String)
    (h : other ≠ key) : (state.set key value).get other = state.get other := by
  cases key <;> cases other <;> first | rfl | exact absurd rfl h

/-- C13: a `set` action returns the state itself when the field already holds
the value, and otherwise a state whose field `key` holds the value and whose
other fields are those of the old state; an action of a type other than `set`
and `reset` returns the state itself. -/
theorem formReducer_patches_one_field (state : Form) (key : FormKey) (value : String) :
    (state.get key = value → formReducer state (.set key value) = state)
    ∧ (state.get key ≠ value
        → (formReducer state (.set key value)).get key = value
          ∧ ∀ other, other ≠ key
              → (formReducer state (.set key value)).get other = state.get other)
    ∧ (formReducer state (.set key value)).get key = value
    ∧ (∀ type, formReducer state (.other type) = state) := by
  refine ⟨?_, ?_, ?_, fun _ => rfl⟩
  · intro h
    simp [formReducer, h]
  · intro h
    simp only [formReducer, if_neg h]
    exact ⟨Form.get_set state key value, fun other ho => Form.get_set_of_ne state key other value ho⟩
  · by_cases h : state.get key = value
    · simp only [formReducer, if_pos h]
      exact h
    · simp only [formReducer, if_neg h]
      exact Form.get_set state key value

/-- The reducer at a form whose `name` is `"Jane"`: setting `"Jane"` again
keeps the state, setting `"John"` changes `name` and nothing else. -/
theorem formReducer_patches_one_field_witness :
    formReducer { initialForm with name := "Jane", iban := "X" } (.set .name "Jane")
      = { initialForm with name := "Jane", iban := "X" }
    ∧ formReducer { initialForm with name := "Jane", iban := "X" } (.set .name "John")
      = { initialForm with name := "John", iban := "X" } :=
  ⟨(formReducer_patches_one_field { initialForm with name := "Jane", iban := "X" }
      .name "Jane").1 rfl, by decide⟩


/-! ## SWIFT formatting of valid input -/

theorem dropTrailingHyphen_prefix_self (s : String) : (dropTrailingHyphen s).data <+: s.data := by
  unfold dropTrailingHyphen
  split_ifs
  · exact List.dropLast_prefix s.data
  · exact List.prefix_refl s.data

theorem length_eq_four {l : List Char} (h : l.length = 4) : ∃ a b c d, l = [a, b, c, d] := by
  match l, h with
  | [a, b, c, d], _ => exact ⟨a, b, c, d, rfl⟩

open RegularExpression in
/-- A text of the shape `AAAA-BB-CC-1234`, character by character. -/
theorem swiftPattern_chars (v : String) (hv : test swiftPattern v = true) :
    ∃ a₁ a₂ a₃ a₄ b₁ b₂ c₁ c₂ d₁ d₂ d₃ d₄,
      v.data = [a₁, a₂, a₃, a₄, '-', b₁, b₂, '-', c₁, c₂, '-', d₁, d₂, d₃, d₄]
      ∧ (∀ c ∈ [a₁, a₂, a₃, a₄, b₁, b₂], c ∈ upperAZ)
      ∧ (∀ c ∈ [c₁, c₂], c ∈ alnumAZ09)
      ∧ (∀ c ∈ [d₁, d₂, d₃, d₄], c ∈ digit09) := by
  unfold test swiftPattern hyphen at hv
  obtain ⟨t, d, hx, ht, hd⟩ := (mul_rmatch_iff _ _ _).1 hv
  obtain ⟨t, h₃, rfl, ht, hh₃⟩ := (mul_rmatch_iff _ _ _).1 ht
  obtain ⟨t, c, rfl, ht, hc⟩ := (mul_rmatch_iff _ _ _).1 ht
  obtain ⟨t, h₂, rfl, ht, hh₂⟩ := (mul_rmatch_iff _ _ _).1 ht
  obtain ⟨t, b, rfl, ht, hb⟩ := (mul_rmatch_iff _ _ _).1 ht
  obtain ⟨a, h₁, rfl, ha, hh₁⟩ := (mul_rmatch_iff _ _ _).1 ht
  rw [(char_rmatch_iff _ _).1 hh₁, (char_rmatch_iff _ _).1 hh₂, (char_rmatch_iff _ _).1 hh₃] at hx
  obtain ⟨la, ma⟩ := (exactly_rmatch_iff _ _ _).1 ha
  obtain ⟨lb, mb⟩ := (exactly_rmatch_iff _ _ _).1 hb
  obtain ⟨lc, mc⟩ := (exactly_rmatch_iff _ _ _).1 hc
  obtain ⟨ld, md⟩ := (exactly_rmatch_iff _ _ _).1 hd
  obtain ⟨a₁, a₂, a₃, a₄, rfl⟩ := length_eq_four la
  obtain ⟨b₁, b₂, rfl⟩ := List.length_eq_two.1 lb
  obtain ⟨c₁, c₂, rfl⟩ := List.length_eq_two.1 lc
  obtain ⟨d₁, d₂, d₃, d₄, rfl⟩ := length_eq_four ld
  refine ⟨a₁, a₂, a₃, a₄, b₁, b₂, c₁, c₂, d₁, d₂, d₃, d₄, by simpa using hx, ?_, mc, md⟩
  intro c hc
  simp only [List.mem_cons, List.mem_singleton, List.not_mem_nil, or_false] at hc
  rcases hc with rfl | rfl | rfl | rfl | rfl | rfl
  · exact ma _ (by simp)
  · exact ma _ (by simp)
  · exact ma _ (by simp)
  · exact ma _ (by simp)
  · exact mb _ (by simp)
  · exact mb _ (by simp)


theorem upperChar_hyphen : upperChar '-' = ['-'] := by decide

theorem hyphen_not_alnum : '-' ∉ alnumAZ09 := by decide

theorem alnum_ne_hyphen : ∀ c ∈ alnumAZ09, c ≠ '-' := by decide

/-- Formatting the first `n` characters of a text of the shape
`AAAA-BB-CC-1234` gives them back, without a trailing hyphen. -/
theorem swiftFormat_take_valid (a₁ a₂ a₃ a₄ b₁ b₂ c₁ c₂ d₁ d₂ d₃ d₄ : Char)
    (hup : ∀ c ∈ [a₁, a₂, a₃, a₄, b₁, b₂], c ∈ upperAZ)
    (hal : ∀ c ∈ [c₁, c₂], c ∈ alnumAZ09)
    (hdg : ∀ c ∈ [d₁, d₂, d₃, d₄], c ∈ digit09) (n : Nat) (hn : n ≤ 15) :
    swiftFormat (.str ⟨[a₁, a₂, a₃, a₄, '-', b₁, b₂, '-', c₁, c₂, '-', d₁, d₂, d₃, d₄].take n⟩)
      = dropTrailingHyphen ⟨[a₁, a₂, a₃, a₄, '-', b₁, b₂, '-', c₁, c₂, '-', d₁, d₂, d₃, d₄].take n⟩ := by
  have ua₁ : a₁ ∈ upperAZ := hup a₁ (by simp)
  have ma₁ : a₁ ∈ alnumAZ09 := upperAZ_subset a₁ ua₁
  have ua₂ : a₂ ∈ upperAZ := hup a₂ (by simp)
  have ma₂ : a₂ ∈ alnumAZ09 := upperAZ_subset a₂ ua₂
  have ua₃ : a₃ ∈ upperAZ := hup a₃ (by simp)
  have ma₃ : a₃ ∈ alnumAZ09 := upperAZ_subset a₃ ua₃
  have ua₄ : a₄ ∈ upperAZ := hup a₄ (by simp)
  have ma₄ : a₄ ∈ alnumAZ09 := upperAZ_subset a₄ ua₄
  have ub₁ : b₁ ∈ upperAZ := hup b₁ (by simp)
  have mb₁ : b₁ ∈ alnumAZ09 := upperAZ_subset b₁ ub₁
  have ub₂ : b₂ ∈ upperAZ := hup b₂ (by simp)
  have mb₂ : b₂ ∈ alnumAZ09 := upperAZ_subset b₂ ub₂
  have mc₁ : c₁ ∈ alnumAZ09 := hal c₁ (by simp)
  have mc₂ : c₂ ∈ alnumAZ09 := hal c₂ (by simp)
  have gd₁ : d₁ ∈ digit09 := hdg d₁ (by simp)
  have md₁ : d₁ ∈ alnumAZ09 := digit09_subset d₁ gd₁
  have gd₂ : d₂ ∈ digit09 := hdg d₂ (by simp)
  have md₂ : d₂ ∈ alnumAZ09 := digit09_subset d₂ gd₂
  have gd₃ : d₃ ∈ digit09 := hdg d₃ (by simp)
  have md₃ : d₃ ∈ alnumAZ09 := digit09_subset d₃ gd₃
  have gd₄ : d₄ ∈ digit09 := hdg d₄ (by simp)
  have md₄ : d₄ ∈ alnumAZ09 := digit09_subset d₄ gd₄
  have fa₁ : upperChar a₁ = [a₁] := upperChar_fixed a₁ (List.mem_cons_of_mem _ ma₁)
  have na₁ : a₁ ≠ '-' := alnum_ne_hyphen a₁ ma₁
  have fa₂ : upperChar a₂ = [a₂] := upperChar_fixed a₂ (List.mem_cons_of_mem _ ma₂)
  have na₂ : a₂ ≠ '-' := alnum_ne_hyphen a₂ ma₂
  have fa₃ : upperChar a₃ = [a₃] := upperChar_fixed a₃ (List.mem_cons_of_mem _ ma₃)
  have na₃ : a₃ ≠ '-' := alnum_ne_hyphen a₃ ma₃
  have fa₄ : upperChar a₄ = [a₄] := upperChar_fixed a₄ (List.mem_cons_of_mem _ ma₄)
  have na₄ : a₄ ≠ '-' := alnum_ne_hyphen a₄ ma₄
  have fb₁ : upperChar b₁ = [b₁] := upperChar_fixed b₁ (List.mem_cons_of_mem _ mb₁)
  have nb₁ : b₁ ≠ '-' := alnum_ne_hyphen b₁ mb₁
  have fb₂ : upperChar b₂ = [b₂] := upperChar_fixed b₂ (List.mem_cons_of_mem _ mb₂)
  have nb₂ : b₂ ≠ '-' := alnum_ne_hyphen b₂ mb₂
  have fc₁ : upperChar c₁ = [c₁] := upperChar_fixed c₁ (List.mem_cons_of_mem _ mc₁)
  have nc₁ : c₁ ≠ '-' := alnum_ne_hyphen c₁ mc₁
  have fc₂ : upperChar c₂ = [c₂] := upperChar_fixed c₂ (List.mem_cons_of_mem _ mc₂)
  have nc₂ : c₂ ≠ '-' := alnum_ne_hyphen c₂ mc₂
  have fd₁ : upperChar d₁ = [d₁] := upperChar_fixed d₁ (List.mem_cons_of_mem _ md₁)
  have nd₁ : d₁ ≠ '-' := alnum_ne_hyphen d₁ md₁
  have fd₂ : upperChar d₂ = [d₂] := upperChar_fixed d₂ (List.mem_cons_of_mem _ md₂)
  have nd₂ : d₂ ≠ '-' := alnum_ne_hyphen d₂ md₂
  have fd₃ : upperChar d₃ = [d₃] := upperChar_fixed d₃ (List.mem_cons_of_mem _ md₃)
  have nd₃ : d₃ ≠ '-' := alnum_ne_hyphen d₃ md₃
  have fd₄ : upperChar d₄ = [d₄] := upperChar_fixed d₄ (List.mem_cons_of_mem _ md₄)
  have nd₄ : d₄ ≠ '-' := alnum_ne_hyphen d₄ md₄
  interval_cases n <;>
    (apply String.ext
     rw [swiftFormat_data, swiftRaw_data]
     simp [JsValue.orEmpty, hyphenated, dropTrailingHyphen, upperChar_hyphen, hyphen_not_alnum,
       ua₁, ua₂, ua₃, ua₄, ub₁, ub₂, gd₁, gd₂, gd₃, gd₄, ma₁, fa₁, na₁, ma₂, fa₂, na₂, ma₃, fa₃,
       na₃, ma₄, fa₄, na₄, mb₁, fb₁, nb₁, mb₂, fb₂, nb₂, mc₁, fc₁, nc₁, mc₂, fc₂, nc₂, md₁, fd₁,
       nd₁, md₂, fd₂, nd₂, md₃, fd₃, nd₃, md₄, fd₄, nd₄])

theorem swiftFormat_prefix_eq (v p : String) (hv : test swiftPattern v = true)
    (hp : p.data <+: v.data) : swiftFormat (.str p) = dropTrailingHyphen p := by
  obtain ⟨a₁, a₂, a₃, a₄, b₁, b₂, c₁, c₂, d₁, d₂, d₃, d₄, hdata, hup, hal, hdg⟩ :=
    swiftPattern_chars v hv
  have hlen : p.data.length ≤ 15 := by
    have := hp.length_le
    rw [hdata] at this
    simpa using this
  have hpd : p = ⟨[a₁, a₂, a₃, a₄, '-', b₁, b₂, '-', c₁, c₂, '-', d₁, d₂, d₃, d₄].take
      p.data.length⟩ := by
    apply String.ext
    rw [← hdata]
    exact List.prefix_iff_eq_take.1 hp
  rw [hpd]
  exact swiftFormat_take_valid a₁ a₂ a₃ a₄ b₁ b₂ c₁ c₂ d₁ d₂ d₃ d₄ hup hal hdg _ hlen

theorem swiftPattern_fixed (v : String) (hv : test swiftPattern v = true) :
    dropTrailingHyphen v = v ∧ toUpperCase v = v := by
  obtain ⟨a₁, a₂, a₃, a₄, b₁, b₂, c₁, c₂, d₁, d₂, d₃, d₄, hdata, hup, hal, hdg⟩ :=
    swiftPattern_chars v hv
  constructor
  · have hne : d₄ ≠ '-' := alnum_ne_hyphen d₄ (digit09_subset d₄ (hdg d₄ (by simp)))
    unfold dropTrailingHyphen
    rw [hdata, if_neg (by simpa using hne)]
  · apply String.ext
    apply flatMap_upperChar_fixed
    rw [hdata]
    intro c hc
    simp only [List.mem_cons, List.mem_singleton, List.not_mem_nil, or_false] at hc
    rcases hc with rfl | rfl | rfl | rfl | rfl | rfl | rfl | rfl | rfl | rfl | rfl | rfl | rfl
      | rfl | rfl
    · exact List.mem_cons_of_mem _ (upperAZ_subset _ (hup _ (by simp)))
    · exact List.mem_cons_of_mem _ (upperAZ_subset _ (hup _ (by simp)))
    · exact List.mem_cons_of_mem _ (upperAZ_subset _ (hup _ (by simp)))
    · exact List.mem_cons_of_mem _ (upperAZ_subset _ (hup _ (by simp)))
    · exact List.mem_cons_self _ _
    · exact List.mem_cons_of_mem _ (upperAZ_subset _ (hup _ (by simp)))
    · exact List.mem_cons_of_mem _ (upperAZ_subset _ (hup _ (by simp)))
    · exact List.mem_cons_self _ _
    · exact List.mem_cons_of_mem _ (hal _ (by simp))
    · exact List.mem_cons_of_mem _ (hal _ (by simp))
    · exact List.mem_cons_self _ _
    · exact List.mem_cons_of_mem _ (digit09_subset _ (hdg _ (by simp)))
    · exact List.mem_cons_of_mem _ (digit09_subset _ (hdg _ (by simp)))
    · exact List.mem_cons_of_mem _ (digit09_subset _ (hdg _ (by simp)))
    · exact List.mem_cons_of_mem _ (digit09_subset _ (hdg _ (by simp)))

/-- C12: for a text `v` of the shape `AAAA-BB-CC-1234` (an upper-case value
that `isValidSwift` accepts) and a prefix `p` of it, formatting `p` gives `p`
without its trailing hyphen, if it has one, which is again a prefix of `v`;
formatting `v` gives `v`, and so does formatting the upper-case form of any
value `isValidSwift` accepts. -/
theorem swiftFormat_prefix_stable (v p : String) (hv : test swiftPattern v = true)
    (hp : p.data <+: v.data) :
    swiftFormat (.str p) = dropTrailingHyphen p
    ∧ (dropTrailingHyphen p).data <+: v.data
    ∧ swiftFormat (.str v) = v
    ∧ isValidSwift (.str v) = true
    ∧ (∀ w : String, isValidSwift (.str w) = true
        → swiftFormat (.str (toUpperCase w)) = toUpperCase w) := by
  have hfix : ∀ u : String, test swiftPattern u = true → swiftFormat (.str u) = u := by
    intro u hu
    rw [swiftFormat_prefix_eq u u hu (List.prefix_refl _)]
    exact (swiftPattern_fixed u hu).1
  refine ⟨swiftFormat_prefix_eq v p hv hp, (dropTrailingHyphen_prefix_self p).trans hp, hfix v hv,
    ?_, ?_⟩
  · unfold isValidSwift JsValue.nullToEmpty
    rw [(swiftPattern_fixed v hv).2]
    exact hv
  · intro w hw
    exact hfix _ hw

/-- The prefix `"ABCD-EF-"` of `"ABCD-EF-12-3456"` is formatted to `"ABCD-EF"`. -/
theorem swiftFormat_prefix_stable_witness :
    swiftFormat (.str "ABCD-EF-") = "ABCD-EF"
      ∧ swiftFormat (.str "ABCD-EF-12-3456") = "ABCD-EF-12-3456" :=
  ⟨(swiftFormat_prefix_stable "ABCD-EF-12-3456" "ABCD-EF-" (by decide) (by decide)).1.trans
      (by decide),
    (swiftFormat_prefix_stable "ABCD-EF-12-3456" "ABCD-EF-" (by decide) (by decide)).2.2.1⟩

end PaymentScreen
